import Mathlib

/-!
Verification of the hazard-scoring pipeline of the
`ai-environmental-risk-predictor` repository.

The pipeline is shallowly embedded over an explicit column-oriented table
type: a table is a list of named numeric columns, a column is a list of
cells, and a cell is `Option ℚ` where `none` models the floating-point NaN
("undefined") sentinel used by pandas/numpy.  The embedding covers the
numeric columns the pipeline actually transforms; the pass-through
timestamp column of the real tables carries no numeric content and is not
modelled.  Each definition mirrors one function of the source
(`src/feature_engineering.py`, `src/recommendation.py`, `src/predict.py`).
-/

namespace EnvRisk

/-- A cell of a numeric pandas column: `none` models NaN. -/
abbrev Cell := Option ℚ

/-- A numeric column. -/
abbrev Col := List Cell

/-- A data frame restricted to its numeric columns: named columns in order. -/
abbrev Table := List (String × Col)

/-- Column names of a table, in order (models `df.columns`). -/
def colNames (df : Table) : List String := df.map (·.1)

/-- Membership test for a column name (models `col in df.columns`). -/
def hasCol (df : Table) (n : String) : Prop := n ∈ colNames df

instance (df : Table) (n : String) : Decidable (hasCol df n) :=
  inferInstanceAs (Decidable (n ∈ colNames df))

/-- Value of a named column (first match), `[]` if absent (models `df[col]`). -/
def getCol (df : Table) (n : String) : Col :=
  match df with
  | [] => []
  | p :: rest => if p.1 = n then p.2 else getCol rest n

/-- Column assignment `df[n] = v`: replaces the column when the name exists,
otherwise appends it on the right, as pandas does. -/
def setCol (df : Table) (n : String) (v : Col) : Table :=
  if hasCol df n then df.map (fun p => if p.1 = n then (n, v) else p)
  else df ++ [(n, v)]

/-- Number of rows of the table (length of its first column). -/
def nRows (df : Table) : Nat := ((df.head?).map (fun p => p.2.length)).getD 0

/-- Models `df.empty`: a frame with no columns or no rows. -/
def tableEmpty (df : Table) : Bool := df.isEmpty || df.all (fun p => p.2.isEmpty)

/-- Keep only the first `m` rows of every column (an input truncated just
after row `m - 1`). -/
def truncRows (m : Nat) (df : Table) : Table := df.map (fun p => (p.1, p.2.take m))

/-- Apply a column transform to every column of the table. -/
def mapVals (f : Col → Col) (df : Table) : Table := df.map (fun p => (p.1, f p.2))

/-- Cell at row `i` of column `n`; `none` when the column or row is absent. -/
def cell (df : Table) (n : String) (i : Nat) : Cell := (getCol df n).getD i none

/-! ### Pandas column primitives used by `engineer_features` -/

/-- Models `Series.shift(k)`: `k` NaNs, then the first `length - k` values. -/
def pdShift (k : Nat) (v : Col) : Col := (List.replicate k none ++ v).take v.length

/-- The trailing window of `w` rows ending at row `i` (rows `i+1-w .. i`). -/
def windowAt (w : Nat) (v : Col) (i : Nat) : Col := (v.drop (i + 1 - w)).take w

/-- Sum of a column's cells, NaN read as 0 (used only on all-defined windows). -/
def cellSum (v : Col) : ℚ := (v.map (fun x => x.getD 0)).sum

/-- Models `Series.rolling(w).mean()` with the pandas default
`min_periods = w`: the mean of the trailing `w`-row window when the window
is complete and fully defined, NaN otherwise. -/
def pdRollMean (w : Nat) (v : Col) : Col :=
  (List.range v.length).map (fun i =>
    if w ≤ i + 1 then
      if (windowAt w v i).all (fun x => x.isSome) then
        some (cellSum (windowAt w v i) / (w : ℚ))
      else none
    else none)

/-- Models `fillna(method="bfill")`: each NaN takes the next defined value
below it (i.e. from a later row), if any. -/
def pdBfill (v : Col) : Col :=
  (List.range v.length).map (fun i => ((v.drop i).filterMap id).head?)

/-- Models `fillna(method="ffill")`: each NaN takes the last defined value
at or above it, if any. -/
def pdFfill (v : Col) : Col :=
  (List.range v.length).map (fun i => ((v.take (i + 1)).filterMap id).getLast?)

/-- Models `fillna(0)`. -/
def pdFill0 (v : Col) : Col := v.map (fun x => some (x.getD 0))

/-- The final NaN policy of `engineer_features`: bfill, then ffill, then 0. -/
def finalFill (v : Col) : Col := pdFill0 (pdFfill (pdBfill v))

/-- Models `(series > thr).astype(int)`: 1 where defined and above the
threshold, else 0 (NaN compares false, hence 0). -/
def flagCol (thr : ℚ) (v : Col) : Col :=
  v.map (fun x =>
    match x with
    | some q => if thr < q then some 1 else some 0
    | none => some 0)

/-! ### `src/feature_engineering.py` -/

/-- The `lag_features` list of `engineer_features`. -/
def lag_features : List String :=
  ["temperature_mean", "relative_humidity_mean", "rain_sum", "precipitation_sum",
   "wind_speed_max", "wind_gust_max", "soil_moisture_mean", "sea_level_pressure_mean"]

/-- The `rolling_features` list of `engineer_features`. -/
def rolling_features : List String :=
  ["rain_sum", "precipitation_sum", "wind_speed_max", "wind_gust_max"]

/-- One iteration of the lag loop: when `col` is present, add its
`shift(1)`, `shift(3)` and `shift(6)` columns. -/
def lagStep (acc : Table) (col : String) : Table :=
  if hasCol acc col then
    let a1 := setCol acc (col ++ "_lag1") (pdShift 1 (getCol acc col))
    let a2 := setCol a1 (col ++ "_lag3") (pdShift 3 (getCol a1 col))
    setCol a2 (col ++ "_lag6") (pdShift 6 (getCol a2 col))
  else acc

/-- One iteration of the rolling loop: when `col` is present, add its
3-row and 6-row rolling means. -/
def rollStep (acc : Table) (col : String) : Table :=
  if hasCol acc col then
    let a1 := setCol acc (col ++ "_roll3") (pdRollMean 3 (getCol acc col))
    setCol a1 (col ++ "_roll6") (pdRollMean 6 (getCol a1 col))
  else acc

/-- The binary risk indicators: `heavy_rain_flag` (`rain_sum > 10`) and
`strong_wind_flag` (`wind_gust_max > 40`), each only when its base column
is present. -/
def addFlags (acc : Table) : Table :=
  let a1 := if hasCol acc "rain_sum" then
      setCol acc "heavy_rain_flag" (flagCol 10 (getCol acc "rain_sum"))
    else acc
  if hasCol a1 "wind_gust_max" then
    setCol a1 "strong_wind_flag" (flagCol 40 (getCol a1 "wind_gust_max"))
  else a1

/-- `engineer_features` before its final NaN handling: lag features, then
rolling statistics, then the binary indicators. -/
def preEngineer (df : Table) : Table :=
  addFlags (rolling_features.foldl rollStep (lag_features.foldl lagStep df))

/-- `engineer_features` of `src/feature_engineering.py`: derived columns,
then the final bfill / ffill / 0 fill over every (numeric) column. -/
def engineer_features (df : Table) : Table := mapVals finalFill (preEngineer df)

/-! ### Python string primitives used by the alert engine -/

/-- Models Python `str.replace` on char lists: replace every non-overlapping
occurrence of `pat`, scanning left to right.  The extra fuel argument makes
the recursion structural. -/
def listReplace : Nat → List Char → List Char → List Char → List Char
  | 0, s, _, _ => s
  | _ + 1, [], _, _ => []
  | fuel + 1, c :: rest, pat, rep =>
    if pat ≠ [] ∧ pat.isPrefixOf (c :: rest) then
      rep ++ listReplace fuel ((c :: rest).drop pat.length) pat rep
    else c :: listReplace fuel rest pat rep

/-- Models Python `s.replace(pat, rep)`. -/
def pyReplace (s pat rep : String) : String :=
  String.mk (listReplace s.data.length s.data pat.data rep.data)

/-- Models Python `s.endswith(suf)`. -/
def pyEndsWith (s suf : String) : Bool := suf.data.isSuffixOf s.data

/-! ### `src/recommendation.py` -/

/-- Models the IEEE comparison `prob < c` on a float that may be NaN:
NaN (`none`) compares false. -/
def floatLt (prob : Cell) (c : ℚ) : Bool :=
  match prob with
  | none => false
  | some q => decide (q < c)

/-- `risk_alert` of `src/recommendation.py`: convert a probability into a
human-readable alert level via the 0.1 / 0.3 / 0.5 threshold chain. -/
def risk_alert (prob : Cell) : String :=
  if floatLt prob (1/10) then "Low Risk — No Action"
  else if floatLt prob (3/10) then "Moderate Risk — Stay Alert"
  else if floatLt prob (1/2) then "High Risk — Prepare Precautions"
  else "Severe Risk — Take Immediate Action"

/-- The `severity_order` list of `apply_risk_alerts`. -/
def severity_order : List String :=
  ["Low Risk — No Action", "Moderate Risk — Stay Alert",
   "High Risk — Prepare Precautions", "Severe Risk — Take Immediate Action"]

/-- Models `severity_order.index(x)` (total: an absent label maps past the
end; every label produced by `risk_alert` is present). -/
def severityRank (s : String) : Nat := severity_order.indexOf s

/-- Models Python `max(severities, key=severity_order.index)`: keeps the
first element on ties, replaces only on a strictly higher rank.  Python
raises on an empty sequence; the call site only reaches it with a
non-empty list, where this total model agrees. -/
def pyMaxBySeverity : List String → String
  | [] => ""
  | x :: xs => xs.foldl (fun b a => if severityRank b < severityRank a then a else b) x

/-- The `risk_prob_cols` list of `apply_risk_alerts`: the column names
ending in `_risk_prob`. -/
def risk_prob_cols (df : Table) : List String :=
  (colNames df).filter (fun c => pyEndsWith c "_risk_prob")

/-- String-valued columns produced by the alert engine, in assignment
order (replace-or-append semantics, as for numeric columns). -/
def setSCol (cols : List (String × List String)) (n : String) (v : List String) :
    List (String × List String) :=
  if n ∈ cols.map (·.1) then cols.map (fun p => if p.1 = n then (n, v) else p)
  else cols ++ [(n, v)]

/-- First string column with the given name, `[]` if absent. -/
def getSCol (cols : List (String × List String)) (n : String) : List String :=
  match cols with
  | [] => []
  | p :: rest => if p.1 = n then p.2 else getSCol rest n

/-- One iteration of the individual-alert loop of `apply_risk_alerts`:
`df[alert_col] = df[prob_col].apply(risk_alert)`. -/
def alertAssign (df : Table) (acc : List (String × List String)) (probCol : String) :
    List (String × List String) :=
  setSCol acc (pyReplace probCol "_prob" "_alert") ((getCol df probCol).map risk_alert)

/-- The string columns written by the individual-alert loop. -/
def applyAlertCols (df : Table) : List (String × List String) :=
  (risk_prob_cols df).foldl (alertAssign df) []

/-- `apply_risk_alerts` of `src/recommendation.py`.  The result keeps the
numeric input table unchanged (`df.copy()`) and collects the string-valued
columns the function assigns: one `*_risk_alert` column per `*_risk_prob`
column, then the combined `overall_alert` column (per-row maximum by
`severity_order` when at least one probability column exists, otherwise
the constant "No Risks Predicted"). -/
def apply_risk_alerts (df : Table) : Table × List (String × List String) :=
  let probCols := risk_prob_cols df
  let alertsAdded := applyAlertCols df
  if probCols.isEmpty then
    (df, setSCol alertsAdded "overall_alert" (List.replicate (nRows df) "No Risks Predicted"))
  else
    let alertCols := probCols.map (fun c => pyReplace c "_prob" "_alert")
    let overall := (List.range (nRows df)).map (fun i =>
      pyMaxBySeverity (alertCols.map (fun c => (getSCol alertsAdded c).getD i "")))
    (df, setSCol alertsAdded "overall_alert" overall)

/-- Cell at row `i` of string column `n` of an alert-engine result. -/
def scell (out : Table × List (String × List String)) (n : String) (i : Nat) : Option String :=
  (getSCol out.2 n)[i]?

/-! ### `src/predict.py` -/

/-- An opaque pre-trained scoring model, as `predict_risks` consumes it:
an optional declared feature schema (`feature_names_in_`), the observed
classes (`classes_`), an optional per-class probability interface
(`predict_proba`, absent when the model lacks the attribute) and a
prediction interface (`predict`).  Scoring calls may raise, modelled by
`Except`. -/
structure RiskModel where
  feature_names_in : Option (List String)
  classes : List Int
  predict_proba : Option (Table → Except String (List (List ℚ)))
  predict : Table → Except String (List ℚ)

/-- Modelled from the spec: the body of `align_features` is elided from
`src/src/predict.py` (the file is a corrupted merged diff and the hunk
after `for col in trained_features:` is missing).  Per the spec and the
function's surviving docstring, columns absent from the feature table are
added with value 0, columns not expected are dropped, and the remaining
columns take exactly the trained order. -/
def align_features (X : Table) (trained_features : List String) : Table :=
  trained_features.map (fun col =>
    if hasCol X col then (col, getCol X col) else (col, List.replicate (nRows X) (some 0)))

/-- Width of a per-class probability matrix (`proba.shape[1]`). -/
def probaWidth (proba : List (List ℚ)) : Nat := ((proba.head?).map (·.length)).getD 0

/-- The body of the per-model `try` block of `predict_risks`: align the
features to the model's declared schema (falling back to the runtime
columns), extract the positive-class probability — through `predict_proba`
when it exists, with the single-class fabrication when the probability
matrix is not two columns wide, or through raw `predict` otherwise — and
compute the predicted class.  Any raised error aborts the block. -/
def tryScore (X : Table) (model : RiskModel) : Except String (Col × Col) := do
  let trained_features := model.feature_names_in.getD (colNames X)
  let XAligned := align_features X trained_features
  let probCol : Col ←
    match model.predict_proba with
    | some predictProbaFn => do
        let proba ← predictProbaFn XAligned
        if probaWidth proba = 2 then
          pure (proba.map (fun row => some (row.getD 1 0)))
        else
          match model.classes.head? with
          | some onlyClass =>
              pure (if onlyClass = 1 then List.replicate (nRows X) (some 1)
                    else List.replicate (nRows X) (some 0))
          | none => Except.error "IndexError: classes_ is empty"
    | none => do
        let p ← model.predict XAligned
        pure (p.map some)
  let predCol ← model.predict XAligned
  pure (probCol, predCol.map some)

/-- Modelled from the spec: the tail of the `except` handler of
`predict_risks` (after `df_out[f"{risk_name}_risk_prob"] = np.nan`) and the
function's `return` are truncated from `src/src/predict.py`.  Per the spec,
the failed hazard's probability and predicted class are both set to the
undefined sentinel for every row and the run continues. -/
def failedHazardUpdate (X dfOut : Table) (risk_name : String) : Table :=
  setCol (setCol dfOut (risk_name ++ "_risk_prob") (List.replicate (nRows X) none))
    (risk_name ++ "_risk_pred") (List.replicate (nRows X) none)

/-- One iteration of the model loop of `predict_risks`: on success assign
the probability column then the prediction column; on any raised error
assign the undefined sentinel to both. -/
def scoreStep (X : Table) (dfOut : Table) (p : String × RiskModel) : Table :=
  match tryScore X p.2 with
  | Except.ok (probCol, predCol) =>
      setCol (setCol dfOut (p.1 ++ "_risk_prob") probCol) (p.1 ++ "_risk_pred") predCol
  | Except.error _ => failedHazardUpdate X dfOut p.1

/-- The model loop of `predict_risks`, starting from `df_out = df.copy()`
(the numeric sub-table `X` equals `df` in this embedding). -/
def scoreFold (X : Table) (models : List (String × RiskModel)) : Table :=
  models.foldl (scoreStep X) X

/-- `predict_risks` of `src/predict.py`: fail fast when no numeric data is
available, otherwise score every model in registry order. -/
def predict_risks (df : Table) (models : List (String × RiskModel)) : Except String Table :=
  if tableEmpty df then Except.error "No numeric features available for prediction."
  else Except.ok (scoreFold df models)

/-! ### Basic lemmas about tables -/

theorem hasCol_nil (n : String) : ¬ hasCol [] n := by simp [hasCol, colNames]

theorem hasCol_cons {p : String × Col} {df : Table} {n : String} :
    hasCol (p :: df) n ↔ p.1 = n ∨ hasCol df n := by
  simp [hasCol, colNames, eq_comm]

theorem getCol_eq_nil {df : Table} {n : String} (h : ¬ hasCol df n) : getCol df n = [] := by
  induction df with
  | nil => rfl
  | cons p rest ih =>
    rw [hasCol_cons] at h
    push_neg at h
    simp [getCol, h.1, ih h.2]

theorem getCol_mem {df : Table} {n : String} (h : hasCol df n) :
    ∃ p ∈ df, p.1 = n ∧ getCol df n = p.2 := by
  induction df with
  | nil => exact absurd h (hasCol_nil n)
  | cons p rest ih =>
    by_cases hp : p.1 = n
    · exact ⟨p, by simp, hp, by simp [getCol, hp]⟩
    · rcases hasCol_cons.mp h with h' | h'
      · exact absurd h' hp
      · obtain ⟨q, hq, h1, h2⟩ := ih h'
        exact ⟨q, by simp [hq], h1, by simp [getCol, hp, h2]⟩

theorem getCol_map_set (df : Table) (n : String) (v : Col) (h : hasCol df n) :
    getCol (df.map (fun p => if p.1 = n then (n, v) else p)) n = v := by
  induction df with
  | nil => exact absurd h (hasCol_nil n)
  | cons p rest ih =>
    by_cases hp : p.1 = n
    · simp [getCol, hp]
    · rcases hasCol_cons.mp h with h' | h'
      · exact absurd h' hp
      · simp [getCol, hp, ih h']

theorem getCol_map_set_ne (df : Table) {n m : String} (v : Col) (h : n ≠ m) :
    getCol (df.map (fun p => if p.1 = m then (m, v) else p)) n = getCol df n := by
  induction df with
  | nil => simp [getCol]
  | cons p rest ih =>
    by_cases hp : p.1 = m
    · simp [getCol, hp, Ne.symm h, ih]
    · by_cases hpn : p.1 = n <;> simp [getCol, hp, hpn, h, ih]

theorem getCol_append_one_self (df : Table) (n : String) (v : Col) (h : ¬ hasCol df n) :
    getCol (df ++ [(n, v)]) n = v := by
  induction df with
  | nil => simp [getCol]
  | cons p rest ih =>
    rw [hasCol_cons] at h
    push_neg at h
    simp [getCol, h.1, ih h.2]

theorem getCol_append_one_ne (df : Table) {n m : String} (v : Col) (h : n ≠ m) :
    getCol (df ++ [(m, v)]) n = getCol df n := by
  induction df with
  | nil => simp [getCol, Ne.symm h]
  | cons p rest ih =>
    by_cases hp : p.1 = n <;> simp [getCol, hp, ih]

theorem getCol_setCol_self (df : Table) (n : String) (v : Col) :
    getCol (setCol df n v) n = v := by
  unfold setCol
  by_cases h : hasCol df n
  · rw [if_pos h]
    exact getCol_map_set df n v h
  · rw [if_neg h]
    exact getCol_append_one_self df n v h

theorem getCol_setCol_ne {df : Table} {n m : String} {v : Col} (h : n ≠ m) :
    getCol (setCol df m v) n = getCol df n := by
  unfold setCol
  by_cases hm : hasCol df m
  · rw [if_pos hm]
    exact getCol_map_set_ne df v h
  · rw [if_neg hm]
    exact getCol_append_one_ne df v h

theorem colNames_setCol (df : Table) (n : String) (v : Col) :
    colNames (setCol df n v) = if hasCol df n then colNames df else colNames df ++ [n] := by
  unfold setCol
  by_cases h : hasCol df n
  · rw [if_pos h, if_pos h]
    simp only [colNames, List.map_map]
    apply List.map_congr_left
    intro p _
    by_cases hp : p.1 = n <;> simp [hp]
  · rw [if_neg h, if_neg h]
    simp [colNames]

theorem hasCol_setCol {df : Table} {n m : String} {v : Col} :
    hasCol (setCol df m v) n ↔ n = m ∨ hasCol df n := by
  show n ∈ colNames (setCol df m v) ↔ _
  rw [colNames_setCol]
  by_cases h : hasCol df m
  · rw [if_pos h]
    constructor
    · exact fun h' => Or.inr h'
    · rintro (rfl | h')
      · exact h
      · exact h'
  · rw [if_neg h]
    simp [hasCol, or_comm]

theorem setCol_forall (P : Col → Prop) {df : Table} {n : String} {v : Col}
    (hdf : ∀ p ∈ df, P p.2) (hv : P v) : ∀ p ∈ setCol df n v, P p.2 := by
  intro p hp
  unfold setCol at hp
  by_cases h : hasCol df n
  · rw [if_pos h] at hp
    obtain ⟨x, hx, hxp⟩ := List.mem_map.mp hp
    by_cases hxn : x.1 = n
    · rw [if_pos hxn] at hxp
      exact hxp ▸ hv
    · rw [if_neg hxn] at hxp
      exact hxp ▸ hdf x hx
  · rw [if_neg h] at hp
    rcases List.mem_append.mp hp with h' | h'
    · exact hdf p h'
    · simp only [List.mem_singleton] at h'
      exact h' ▸ hv

theorem hasCol_truncRows {m : Nat} {df : Table} {n : String} :
    hasCol (truncRows m df) n ↔ hasCol df n := by
  simp [hasCol, colNames, truncRows]

theorem getCol_truncRows (m : Nat) (df : Table) (n : String) :
    getCol (truncRows m df) n = (getCol df n).take m := by
  induction df with
  | nil => simp [truncRows, getCol]
  | cons p rest ih =>
    by_cases hp : p.1 = n
    · simp [truncRows, getCol, hp]
    · simpa [truncRows, getCol, hp] using ih

theorem setCol_truncRows (m : Nat) (df : Table) (n : String) (v : Col) :
    truncRows m (setCol df n v) = setCol (truncRows m df) n (v.take m) := by
  unfold setCol
  by_cases h : hasCol df n
  · rw [if_pos h, if_pos (hasCol_truncRows.mpr h)]
    simp only [truncRows, List.map_map]
    apply List.map_congr_left
    intro p _
    by_cases hp : p.1 = n <;> simp [hp]
  · rw [if_neg h, if_neg (fun h' => h (hasCol_truncRows.mp h'))]
    simp [truncRows]

theorem hasCol_mapVals {f : Col → Col} {df : Table} {n : String} :
    hasCol (mapVals f df) n ↔ hasCol df n := by
  simp [hasCol, colNames, mapVals]

theorem getCol_mapVals (f : Col → Col) (df : Table) (n : String) (hf : f [] = []) :
    getCol (mapVals f df) n = f (getCol df n) := by
  induction df with
  | nil => simp [mapVals, getCol, hf]
  | cons p rest ih =>
    by_cases hp : p.1 = n
    · simp [mapVals, getCol, hp]
    · simpa [mapVals, getCol, hp] using ih

/-! ### Lemmas about the pandas column primitives -/

theorem pdShift_length (k : Nat) (v : Col) : (pdShift k v).length = v.length := by
  simp [pdShift]

theorem pdRollMean_length (w : Nat) (v : Col) : (pdRollMean w v).length = v.length := by
  simp [pdRollMean]

theorem pdBfill_length (v : Col) : (pdBfill v).length = v.length := by simp [pdBfill]

theorem pdFfill_length (v : Col) : (pdFfill v).length = v.length := by simp [pdFfill]

theorem pdFill0_length (v : Col) : (pdFill0 v).length = v.length := by simp [pdFill0]

theorem finalFill_length (v : Col) : (finalFill v).length = v.length := by
  simp [finalFill, pdFill0_length, pdFfill_length, pdBfill_length]

theorem flagCol_length (thr : ℚ) (v : Col) : (flagCol thr v).length = v.length := by
  simp [flagCol]

theorem finalFill_nil : finalFill [] = [] := rfl

theorem getD_take {v : Col} {m i : Nat} (h : i < m) :
    (v.take m).getD i none = v.getD i none := by
  simp [List.getD_eq_getElem?_getD, List.getElem?_take, h]

theorem getD_getElem {v : Col} {i : Nat} (hi : i < v.length) : v.getD i none = v[i] := by
  rw [List.getD_eq_getElem?_getD, List.getElem?_eq_getElem hi]
  rfl

theorem getD_eq_some_of_lt (v : Col) (i : Nat) (hlen : i < v.length)
    (hs : ∀ x ∈ v, x ≠ none) : ∃ q, v.getD i none = some q := by
  rw [getD_getElem hlen]
  rcases hx : v[i] with _ | q
  · exact absurd hx (hs v[i] (List.getElem_mem hlen))
  · exact ⟨q, rfl⟩

theorem getD_eq_none_of_ge {v : Col} {i : Nat} (hlen : v.length ≤ i) :
    v.getD i none = none := by
  rw [List.getD_eq_getElem?_getD, List.getElem?_eq_none hlen]
  rfl

theorem getD_range_map {f : Nat → Cell} {n i : Nat} (h : i < n) :
    (((List.range n).map f).getD i none) = f i := by
  simp [List.getD_eq_getElem?_getD, List.getElem?_map, List.getElem?_range, h]

theorem pdShift_getD {k i : Nat} {v : Col} (hk : k ≤ i) (hi : i < v.length) :
    (pdShift k v).getD i none = v.getD (i - k) none := by
  unfold pdShift
  rw [getD_take hi, List.getD_append_right _ _ _ _ (by simpa using hk)]
  simp

theorem pdShift_take (k m : Nat) (v : Col) :
    pdShift k (v.take m) = (pdShift k v).take m := by
  rcases Nat.le_total m v.length with hm | hm
  · unfold pdShift
    have h1 : List.replicate k (none : Cell) ++ v.take m
        = (List.replicate k (none : Cell) ++ v).take (k + m) := by
      rw [List.take_append_eq_append_take]
      simp [List.take_replicate, Nat.min_eq_left (Nat.le_add_right k m)]
    rw [h1, List.take_take, List.take_take]
    congr 1
    simp [List.length_take]
  · rw [List.take_of_length_le hm,
      List.take_of_length_le (le_trans (le_of_eq (pdShift_length k v)) hm)]

theorem windowAt_take {w m i : Nat} (v : Col) (hi : i < m) (hw : w ≤ i + 1) :
    windowAt w (v.take m) i = windowAt w v i := by
  unfold windowAt
  rw [List.drop_take]
  rw [List.take_take]
  congr 1
  omega

theorem pdRollMean_take (w m : Nat) (v : Col) :
    pdRollMean w (v.take m) = (pdRollMean w v).take m := by
  unfold pdRollMean
  rw [← List.map_take, List.take_range, List.length_take]
  apply List.map_congr_left
  intro i hi
  rw [List.mem_range] at hi
  by_cases hw : w ≤ i + 1
  · rw [windowAt_take v (by omega) hw]
  · simp [hw]

theorem flagCol_take (thr : ℚ) (m : Nat) (v : Col) :
    flagCol thr (v.take m) = (flagCol thr v).take m := by
  simp [flagCol, List.map_take]

theorem pdBfill_getD {v : Col} {i : Nat} (hi : i < v.length) :
    (pdBfill v).getD i none = ((v.drop i).filterMap id).head? := by
  unfold pdBfill
  rw [getD_range_map hi]

theorem pdFfill_getD {v : Col} {i : Nat} (hi : i < v.length) :
    (pdFfill v).getD i none = ((v.take (i + 1)).filterMap id).getLast? := by
  unfold pdFfill
  rw [getD_range_map hi]

theorem pdBfill_getD_some {v : Col} {i : Nat} {q : ℚ} (h : v.getD i none = some q) :
    (pdBfill v).getD i none = some q := by
  have hi : i < v.length := by
    by_contra hlt
    push_neg at hlt
    rw [getD_eq_none_of_ge hlt] at h
    exact Option.noConfusion h
  rw [pdBfill_getD hi, List.drop_eq_getElem_cons hi]
  rw [getD_getElem hi] at h
  simp [h]

theorem pdFfill_getD_some {v : Col} {i : Nat} {q : ℚ} (h : v.getD i none = some q) :
    (pdFfill v).getD i none = some q := by
  have hi : i < v.length := by
    by_contra hlt
    push_neg at hlt
    rw [getD_eq_none_of_ge hlt] at h
    exact Option.noConfusion h
  rw [pdFfill_getD hi, List.take_succ]
  rw [getD_getElem hi] at h
  rw [List.getElem?_eq_getElem hi, h]
  simp

theorem pdFill0_getD_some {v : Col} {i : Nat} {q : ℚ} (h : v.getD i none = some q) :
    (pdFill0 v).getD i none = some q := by
  have hi : i < v.length := by
    by_contra hlt
    push_neg at hlt
    rw [getD_eq_none_of_ge hlt] at h
    exact Option.noConfusion h
  unfold pdFill0
  rw [List.getD_eq_getElem?_getD, List.getElem?_map]
  rw [getD_getElem hi] at h
  rw [List.getElem?_eq_getElem hi, h]
  rfl

theorem finalFill_getD_some {v : Col} {i : Nat} {q : ℚ} (h : v.getD i none = some q) :
    (finalFill v).getD i none = some q :=
  pdFill0_getD_some (pdFfill_getD_some (pdBfill_getD_some h))

/-! ### String lemmas for derived column names -/

theorem append_cancel_of_len {a b s t : String} (hlen : s.data.length = t.data.length)
    (h : a ++ s = b ++ t) : a = b ∧ s = t := by
  have hd : a.data ++ s.data = b.data ++ t.data := by
    rw [← String.data_append, ← String.data_append, h]
  obtain ⟨h1, h2⟩ := List.append_inj' hd hlen
  exact ⟨String.ext h1, String.ext h2⟩

theorem append_ne_of_base_ne {a b s t : String} (hlen : s.data.length = t.data.length)
    (hne : a ≠ b) : a ++ s ≠ b ++ t :=
  fun h => hne (append_cancel_of_len hlen h).1

theorem append_ne_of_suffix_ne {a b s t : String} (hlen : s.data.length = t.data.length)
    (hne : s ≠ t) : a ++ s ≠ b ++ t :=
  fun h => hne (append_cancel_of_len hlen h).2

theorem append_ne_self {s t : String} (ht : t.data ≠ []) : s ++ t ≠ s := by
  intro h
  have := congrArg (fun x => x.data.length) h
  simp only [String.data_append, List.length_append] at this
  have : t.data.length = 0 := by omega
  exact ht (List.length_eq_zero.mp this)

/-! ### Generic fold lemmas -/

theorem foldl_pres {α : Type} {step : Table → α → Table} {P : Table → Prop}
    (l : List α) (acc : Table) (hstep : ∀ a ∈ l, ∀ t, P t → P (step t a)) (h : P acc) :
    P (l.foldl step acc) := by
  induction l generalizing acc with
  | nil => exact h
  | cons x xs ih =>
    exact ih _ (fun a ha t ht => hstep a (List.mem_cons_of_mem x ha) t ht)
      (hstep x (List.mem_cons_self x xs) acc h)

theorem foldl_getCol_inv {α : Type} {step : Table → α → Table} {n : String}
    (l : List α) (acc : Table) (hstep : ∀ a ∈ l, ∀ t, getCol (step t a) n = getCol t n) :
    getCol (l.foldl step acc) n = getCol acc n := by
  induction l generalizing acc with
  | nil => rfl
  | cons x xs ih =>
    rw [List.foldl_cons, ih _ (fun a ha t => hstep a (by simp [ha]) t),
      hstep x (by simp) acc]

theorem foldl_comm {α : Type} (g : Table → Table) {step : Table → α → Table}
    (l : List α) (acc : Table) (hstep : ∀ a ∈ l, ∀ t, step (g t) a = g (step t a)) :
    l.foldl step (g acc) = g (l.foldl step acc) := by
  induction l generalizing acc with
  | nil => rfl
  | cons x xs ih =>
    rw [List.foldl_cons, hstep x (by simp) acc, List.foldl_cons,
      ih _ (fun a ha t => hstep a (by simp [ha]) t)]

/-! ### Truncation commutes with the derived-column construction -/

theorem lagStep_trunc (m : Nat) (acc : Table) (col : String) :
    lagStep (truncRows m acc) col = truncRows m (lagStep acc col) := by
  unfold lagStep
  by_cases h : hasCol acc col
  · rw [if_pos (hasCol_truncRows.mpr h), if_pos h]
    simp only [getCol_truncRows, pdShift_take, ← setCol_truncRows]
  · rw [if_neg (fun h' => h (hasCol_truncRows.mp h')), if_neg h]

theorem rollStep_trunc (m : Nat) (acc : Table) (col : String) :
    rollStep (truncRows m acc) col = truncRows m (rollStep acc col) := by
  unfold rollStep
  by_cases h : hasCol acc col
  · rw [if_pos (hasCol_truncRows.mpr h), if_pos h]
    simp only [getCol_truncRows, pdRollMean_take, ← setCol_truncRows]
  · rw [if_neg (fun h' => h (hasCol_truncRows.mp h')), if_neg h]

theorem addFlags_trunc (m : Nat) (acc : Table) :
    addFlags (truncRows m acc) = truncRows m (addFlags acc) := by
  unfold addFlags
  by_cases h1 : hasCol acc "rain_sum" <;>
    by_cases h2 : hasCol acc "wind_gust_max" <;>
      simp only [hasCol_truncRows, h1, h2, if_pos, if_neg, if_true, if_false,
        getCol_truncRows, flagCol_take, ← setCol_truncRows, hasCol_setCol] <;>
      simp [hasCol_truncRows, hasCol_setCol, h1, h2, getCol_truncRows, flagCol_take,
        ← setCol_truncRows]

theorem preEngineer_trunc (m : Nat) (df : Table) :
    preEngineer (truncRows m df) = truncRows m (preEngineer df) := by
  unfold preEngineer
  rw [foldl_comm (truncRows m) lag_features df (fun a _ t => lagStep_trunc m t a),
    foldl_comm (truncRows m) rolling_features _ (fun a _ t => rollStep_trunc m t a),
    addFlags_trunc]

/-! ### Well-formedness invariants through the feature pipeline -/

/-- Every column of the table has length `L` and only defined cells. -/
abbrev AllDefined (L : Nat) (df : Table) : Prop :=
  ∀ p ∈ df, p.2.length = L ∧ ∀ x ∈ p.2, x ≠ none

/-- Every column of the table has length `L` and a defined cell at row `T`. -/
abbrev GoodAt (L T : Nat) (df : Table) : Prop :=
  ∀ p ∈ df, p.2.length = L ∧ p.2.getD T none ≠ none

/-- The base observation columns survive the accumulated derivation steps. -/
abbrev BaseKept (df acc : Table) : Prop :=
  ∀ n ∈ lag_features, getCol acc n = getCol df n ∧ (hasCol acc n ↔ hasCol df n)

theorem lag_names_fresh : ∀ b ∈ lag_features, ∀ n ∈ lag_features,
    n ≠ b ++ "_lag1" ∧ n ≠ b ++ "_lag3" ∧ n ≠ b ++ "_lag6" := by decide

theorem roll_names_fresh : ∀ b ∈ rolling_features, ∀ n ∈ lag_features,
    n ≠ b ++ "_roll3" ∧ n ≠ b ++ "_roll6" := by decide

theorem flag_names_fresh : ∀ n ∈ lag_features,
    n ≠ "heavy_rain_flag" ∧ n ≠ "strong_wind_flag" := by decide

theorem rolling_sub_lag : ∀ b ∈ rolling_features, b ∈ lag_features := by decide

theorem allDefined_goodAt {L T : Nat} {df : Table} (h : AllDefined L df) (hT : T < L) :
    GoodAt L T df := by
  intro p hp
  obtain ⟨h1, h2⟩ := h p hp
  refine ⟨h1, ?_⟩
  obtain ⟨q, hq⟩ := getD_eq_some_of_lt p.2 T (by rw [h1]; exact hT) h2
  intro hcon
  rw [hq] at hcon
  exact Option.noConfusion hcon

theorem getCol_allDefined {L : Nat} {df : Table} {n : String} (hdf : AllDefined L df)
    (h : hasCol df n) : (getCol df n).length = L ∧ ∀ x ∈ getCol df n, x ≠ none := by
  obtain ⟨p, hp, _, hp2⟩ := getCol_mem h
  rw [hp2]
  exact hdf p hp

theorem pdShift_good (k : Nat) {L T : Nat} {v : Col} (hlen : v.length = L)
    (hs : ∀ x ∈ v, x ≠ none) (hk : k ≤ T) (hT : T < L) :
    (pdShift k v).length = L ∧ (pdShift k v).getD T none ≠ none := by
  refine ⟨by rw [pdShift_length, hlen], ?_⟩
  rw [pdShift_getD hk (by rw [hlen]; exact hT)]
  obtain ⟨q, hq⟩ := getD_eq_some_of_lt v (T - k) (by rw [hlen]; omega) hs
  intro hcon
  rw [hq] at hcon
  exact Option.noConfusion hcon

theorem windowAt_all_some {w : Nat} {v : Col} {i : Nat} (hs : ∀ x ∈ v, x ≠ none) :
    ∀ x ∈ windowAt w v i, x ≠ none := fun x hx =>
  hs x (List.mem_of_mem_drop (List.mem_of_mem_take hx))

theorem pdRollMean_getD_some {L T w : Nat} {v : Col} (hlen : v.length = L)
    (hs : ∀ x ∈ v, x ≠ none) (hw : w ≤ T + 1) (hT : T < L) :
    (pdRollMean w v).getD T none = some (cellSum (windowAt w v T) / (w : ℚ)) := by
  have hall : ((windowAt w v T).all (fun x => x.isSome)) = true := by
    rw [List.all_eq_true]
    intro x hx
    simpa [Option.isSome_iff_ne_none] using windowAt_all_some hs x hx
  unfold pdRollMean
  rw [getD_range_map (by rw [hlen]; exact hT)]
  rw [if_pos hw, if_pos hall]

theorem pdRollMean_good (w : Nat) {L T : Nat} {v : Col} (hlen : v.length = L)
    (hs : ∀ x ∈ v, x ≠ none) (hw : w ≤ T + 1) (hT : T < L) :
    (pdRollMean w v).length = L ∧ (pdRollMean w v).getD T none ≠ none := by
  refine ⟨by rw [pdRollMean_length, hlen], ?_⟩
  rw [pdRollMean_getD_some hlen hs hw hT]
  intro hcon
  exact Option.noConfusion hcon

theorem flagCol_all_some {thr : ℚ} {v : Col} : ∀ x ∈ flagCol thr v, x ≠ none := by
  intro x hx
  obtain ⟨y, _, hy⟩ := List.mem_map.mp hx
  rcases y with _ | q
  · simp at hy
    simp [← hy]
  · by_cases h : thr < q <;> simp [h] at hy <;> simp [← hy]

theorem flagCol_good {L T : Nat} {thr : ℚ} {v : Col} (hlen : v.length = L) (hT : T < L) :
    (flagCol thr v).length = L ∧ (flagCol thr v).getD T none ≠ none := by
  refine ⟨by rw [flagCol_length, hlen], ?_⟩
  obtain ⟨q, hq⟩ := getD_eq_some_of_lt (flagCol thr v) T
    (by rw [flagCol_length, hlen]; exact hT) flagCol_all_some
  intro hcon
  rw [hq] at hcon
  exact Option.noConfusion hcon

theorem lagStep_good {L T : Nat} {df : Table} (hdf : AllDefined L df) (hT6 : 6 ≤ T)
    (hTL : T < L) :
    ∀ col ∈ lag_features, ∀ acc, GoodAt L T acc ∧ BaseKept df acc →
      GoodAt L T (lagStep acc col) ∧ BaseKept df (lagStep acc col) := by
  intro col hcol acc h
  obtain ⟨hG, hB⟩ := h
  unfold lagStep
  by_cases hc : hasCol acc col
  case neg => rw [if_neg hc]; exact ⟨hG, hB⟩
  rw [if_pos hc]
  obtain ⟨hne1, hne3, hne6⟩ := lag_names_fresh col hcol col hcol
  have hbase : getCol acc col = getCol df col := (hB col hcol).1
  have hdfc : hasCol df col := (hB col hcol).2.mp hc
  obtain ⟨hlen, hsome⟩ := getCol_allDefined hdf hdfc
  simp only [getCol_setCol_ne hne1, getCol_setCol_ne hne3, hbase]
  constructor
  · refine setCol_forall (fun c => c.length = L ∧ c.getD T none ≠ none) (setCol_forall (fun c => c.length = L ∧ c.getD T none ≠ none) (setCol_forall (fun c => c.length = L ∧ c.getD T none ≠ none) hG ?_) ?_) ?_
    · exact pdShift_good 1 hlen hsome (by omega) hTL
    · exact pdShift_good 3 hlen hsome (by omega) hTL
    · exact pdShift_good 6 hlen hsome (by omega) hTL
  · intro n hn
    obtain ⟨g1, g3, g6⟩ := lag_names_fresh col hcol n hn
    refine ⟨?_, ?_⟩
    · rw [getCol_setCol_ne g6, getCol_setCol_ne g3, getCol_setCol_ne g1]
      exact (hB n hn).1
    · rw [hasCol_setCol, hasCol_setCol, hasCol_setCol]
      simp only [g1, g3, g6, false_or]
      exact (hB n hn).2

theorem rollStep_good {L T : Nat} {df : Table} (hdf : AllDefined L df) (hT6 : 6 ≤ T)
    (hTL : T < L) :
    ∀ col ∈ rolling_features, ∀ acc, GoodAt L T acc ∧ BaseKept df acc →
      GoodAt L T (rollStep acc col) ∧ BaseKept df (rollStep acc col) := by
  intro col hcol acc h
  obtain ⟨hG, hB⟩ := h
  unfold rollStep
  by_cases hc : hasCol acc col
  case neg => rw [if_neg hc]; exact ⟨hG, hB⟩
  rw [if_pos hc]
  have hcl : col ∈ lag_features := rolling_sub_lag col hcol
  obtain ⟨hne3, hne6⟩ := roll_names_fresh col hcol col hcl
  have hbase : getCol acc col = getCol df col := (hB col hcl).1
  have hdfc : hasCol df col := (hB col hcl).2.mp hc
  obtain ⟨hlen, hsome⟩ := getCol_allDefined hdf hdfc
  simp only [getCol_setCol_ne hne3, hbase]
  constructor
  · refine setCol_forall (fun c => c.length = L ∧ c.getD T none ≠ none) (setCol_forall (fun c => c.length = L ∧ c.getD T none ≠ none) hG ?_) ?_
    · exact pdRollMean_good 3 hlen hsome (by omega) hTL
    · exact pdRollMean_good 6 hlen hsome (by omega) hTL
  · intro n hn
    obtain ⟨g3, g6⟩ := roll_names_fresh col hcol n hn
    refine ⟨?_, ?_⟩
    · rw [getCol_setCol_ne g6, getCol_setCol_ne g3]
      exact (hB n hn).1
    · rw [hasCol_setCol, hasCol_setCol]
      simp only [g3, g6, false_or]
      exact (hB n hn).2

theorem addFlags_good {L T : Nat} {df acc : Table} (hdf : AllDefined L df) (hTL : T < L)
    (h : GoodAt L T acc ∧ BaseKept df acc) :
    GoodAt L T (addFlags acc) := by
  obtain ⟨hG, hB⟩ := h
  have hrs : "rain_sum" ∈ lag_features := by decide
  have hwg : "wind_gust_max" ∈ lag_features := by decide
  have hne : ("wind_gust_max" : String) ≠ "heavy_rain_flag" := by decide
  unfold addFlags
  by_cases h1 : hasCol acc "rain_sum"
  · rw [if_pos h1]
    have hdfc : hasCol df "rain_sum" := (hB _ hrs).2.mp h1
    obtain ⟨hlen1, _⟩ := getCol_allDefined hdf hdfc
    have hlen1' : (getCol acc "rain_sum").length = L := by
      rw [(hB _ hrs).1]
      exact hlen1
    have hG1 : GoodAt L T (setCol acc "heavy_rain_flag" (flagCol 10 (getCol acc "rain_sum"))) := by
      refine setCol_forall (fun c => c.length = L ∧ c.getD T none ≠ none) hG ?_
      exact flagCol_good hlen1' hTL
    by_cases h2 : hasCol (setCol acc "heavy_rain_flag" (flagCol 10 (getCol acc "rain_sum")))
        "wind_gust_max"
    · rw [if_pos h2]
      have h2' : hasCol acc "wind_gust_max" := by
        rcases hasCol_setCol.mp h2 with h' | h'
        · exact absurd h' hne
        · exact h'
      have hdfc2 : hasCol df "wind_gust_max" := (hB _ hwg).2.mp h2'
      obtain ⟨hlen2, _⟩ := getCol_allDefined hdf hdfc2
      have hlen2' : (getCol (setCol acc "heavy_rain_flag" (flagCol 10 (getCol acc "rain_sum")))
          "wind_gust_max").length = L := by
        rw [getCol_setCol_ne hne, (hB _ hwg).1]
        exact hlen2
      refine setCol_forall (fun c => c.length = L ∧ c.getD T none ≠ none) hG1 ?_
      exact flagCol_good hlen2' hTL
    · rw [if_neg h2]
      exact hG1
  · rw [if_neg h1]
    by_cases h2 : hasCol acc "wind_gust_max"
    · rw [if_pos h2]
      have hdfc2 : hasCol df "wind_gust_max" := (hB _ hwg).2.mp h2
      obtain ⟨hlen2, _⟩ := getCol_allDefined hdf hdfc2
      have hlen2' : (getCol acc "wind_gust_max").length = L := by
        rw [(hB _ hwg).1]
        exact hlen2
      refine setCol_forall (fun c => c.length = L ∧ c.getD T none ≠ none) hG ?_
      exact flagCol_good hlen2' hTL
    · rw [if_neg h2]
      exact hG

theorem preEngineer_good {L T : Nat} {df : Table} (hdf : AllDefined L df) (hT6 : 6 ≤ T)
    (hTL : T < L) : GoodAt L T (preEngineer df) := by
  have h0 : GoodAt L T df ∧ BaseKept df df :=
    ⟨allDefined_goodAt hdf hTL, fun n _ => ⟨rfl, Iff.rfl⟩⟩
  have h1 := foldl_pres lag_features df (lagStep_good hdf hT6 hTL) h0
  have h2 := foldl_pres rolling_features _ (rollStep_good hdf hT6 hTL) h1
  exact addFlags_good hdf hTL h2

/-- Core of the amended no-look-ahead property: away from the first six
boundary rows and for a fully defined input, the feature cell at row `T`
does not change when the input is truncated just after row `T`. -/
theorem no_lookahead_core {df : Table} {L T : Nat} (hdf : AllDefined L df) (hT6 : 6 ≤ T)
    (hTL : T < L) (name : String) :
    cell (engineer_features (truncRows (T + 1) df)) name T
      = cell (engineer_features df) name T := by
  unfold engineer_features cell
  rw [preEngineer_trunc]
  rw [getCol_mapVals _ _ _ finalFill_nil, getCol_mapVals _ _ _ finalFill_nil]
  rw [getCol_truncRows]
  by_cases h : hasCol (preEngineer df) name
  · obtain ⟨p, hp, _, hp2⟩ := getCol_mem h
    obtain ⟨hlen, hTn⟩ := preEngineer_good hdf hT6 hTL p hp
    rcases hv : p.2.getD T none with _ | q
    · exact absurd hv hTn
    · rw [hp2]
      rw [finalFill_getD_some (by rw [getD_take (Nat.lt_succ_self T)]; exact hv),
        finalFill_getD_some hv]
  · rw [getCol_eq_nil h]
    simp [finalFill_nil]

/-! ### Tracking the rolling-mean columns through the pipeline -/

theorem lagStep_getCol_ne {acc : Table} {col n : String}
    (h1 : n ≠ col ++ "_lag1") (h3 : n ≠ col ++ "_lag3") (h6 : n ≠ col ++ "_lag6") :
    getCol (lagStep acc col) n = getCol acc n := by
  unfold lagStep
  by_cases hc : hasCol acc col
  · rw [if_pos hc, getCol_setCol_ne h6, getCol_setCol_ne h3, getCol_setCol_ne h1]
  · rw [if_neg hc]

theorem lagStep_hasCol_ne {acc : Table} {col n : String}
    (h1 : n ≠ col ++ "_lag1") (h3 : n ≠ col ++ "_lag3") (h6 : n ≠ col ++ "_lag6") :
    hasCol (lagStep acc col) n ↔ hasCol acc n := by
  unfold lagStep
  by_cases hc : hasCol acc col
  · rw [if_pos hc, hasCol_setCol, hasCol_setCol, hasCol_setCol]
    simp [h1, h3, h6]
  · rw [if_neg hc]

theorem rollStep_getCol_ne {acc : Table} {col n : String}
    (h3 : n ≠ col ++ "_roll3") (h6 : n ≠ col ++ "_roll6") :
    getCol (rollStep acc col) n = getCol acc n := by
  unfold rollStep
  by_cases hc : hasCol acc col
  · rw [if_pos hc, getCol_setCol_ne h6, getCol_setCol_ne h3]
  · rw [if_neg hc]

theorem rollStep_hasCol_ne {acc : Table} {col n : String}
    (h3 : n ≠ col ++ "_roll3") (h6 : n ≠ col ++ "_roll6") :
    hasCol (rollStep acc col) n ↔ hasCol acc n := by
  unfold rollStep
  by_cases hc : hasCol acc col
  · rw [if_pos hc, hasCol_setCol, hasCol_setCol]
    simp [h3, h6]
  · rw [if_neg hc]

theorem rollStep_written {acc : Table} {col : String} (hc : hasCol acc col) :
    getCol (rollStep acc col) (col ++ "_roll3") = pdRollMean 3 (getCol acc col) ∧
    getCol (rollStep acc col) (col ++ "_roll6") = pdRollMean 6 (getCol acc col) := by
  have hne : col ++ "_roll3" ≠ col ++ "_roll6" := append_ne_of_suffix_ne rfl (by decide)
  have hcol3 : col ≠ col ++ "_roll3" := Ne.symm (append_ne_self (by decide))
  constructor
  · simp only [rollStep, if_pos hc]
    rw [getCol_setCol_ne hne, getCol_setCol_self]
  · simp only [rollStep, if_pos hc]
    rw [getCol_setCol_self, getCol_setCol_ne hcol3]

theorem addFlags_getCol_ne {acc : Table} {n : String}
    (h1 : n ≠ "heavy_rain_flag") (h2 : n ≠ "strong_wind_flag") :
    getCol (addFlags acc) n = getCol acc n := by
  simp only [addFlags]
  by_cases hr : hasCol acc "rain_sum"
  · rw [if_pos hr]
    by_cases hw : hasCol (setCol acc "heavy_rain_flag" (flagCol 10 (getCol acc "rain_sum")))
        "wind_gust_max"
    · rw [if_pos hw, getCol_setCol_ne h2, getCol_setCol_ne h1]
    · rw [if_neg hw, getCol_setCol_ne h1]
  · rw [if_neg hr]
    by_cases hw : hasCol acc "wind_gust_max"
    · rw [if_pos hw, getCol_setCol_ne h2]
    · rw [if_neg hw]

theorem roll_tag_ne_flag : ∀ c ∈ rolling_features,
    c ++ "_roll3" ≠ "heavy_rain_flag" ∧ c ++ "_roll3" ≠ "strong_wind_flag" ∧
    c ++ "_roll6" ≠ "heavy_rain_flag" ∧ c ++ "_roll6" ≠ "strong_wind_flag" := by decide

/-- After the lag loop, a base column is untouched and still present. -/
theorem lagfold_base (df : Table) {c : String} (hcl : c ∈ lag_features) :
    getCol (lag_features.foldl lagStep df) c = getCol df c ∧
    (hasCol (lag_features.foldl lagStep df) c ↔ hasCol df c) := by
  have hstep : ∀ b ∈ lag_features, ∀ t,
      (getCol t c = getCol df c ∧ (hasCol t c ↔ hasCol df c)) →
      (getCol (lagStep t b) c = getCol df c ∧ (hasCol (lagStep t b) c ↔ hasCol df c)) := by
    intro b hb t ht
    obtain ⟨g1, g3, g6⟩ := lag_names_fresh b hb c hcl
    exact ⟨(lagStep_getCol_ne g1 g3 g6).trans ht.1, (lagStep_hasCol_ne g1 g3 g6).trans ht.2⟩
  exact foldl_pres lag_features df hstep ⟨rfl, Iff.rfl⟩

/-- After the rolling loop, the rolling column of a present base column holds
exactly the pandas rolling mean of that base column. -/
theorem rollfold_written {A : Table} {c : String} (hc : c ∈ rolling_features)
    (hpres : hasCol A c) :
    getCol (rolling_features.foldl rollStep A) (c ++ "_roll3") = pdRollMean 3 (getCol A c) ∧
    getCol (rolling_features.foldl rollStep A) (c ++ "_roll6") = pdRollMean 6 (getCol A c) := by
  simp only [rolling_features, List.mem_cons, List.not_mem_nil, or_false] at hc
  simp only [rolling_features, List.foldl_cons, List.foldl_nil]
  rcases hc with rfl | rfl | rfl | rfl
  · constructor
    · rw [rollStep_getCol_ne (by decide) (by decide), rollStep_getCol_ne (by decide) (by decide),
        rollStep_getCol_ne (by decide) (by decide)]
      exact (rollStep_written hpres).1
    · rw [rollStep_getCol_ne (by decide) (by decide), rollStep_getCol_ne (by decide) (by decide),
        rollStep_getCol_ne (by decide) (by decide)]
      exact (rollStep_written hpres).2
  · have hh1 : hasCol (rollStep A "rain_sum") "precipitation_sum" ↔
        hasCol A "precipitation_sum" := rollStep_hasCol_ne (by decide) (by decide)
    have h1 : getCol (rollStep A "rain_sum") "precipitation_sum"
        = getCol A "precipitation_sum" := rollStep_getCol_ne (by decide) (by decide)
    constructor
    · rw [rollStep_getCol_ne (by decide) (by decide), rollStep_getCol_ne (by decide) (by decide),
        (rollStep_written (hh1.mpr hpres)).1, h1]
    · rw [rollStep_getCol_ne (by decide) (by decide), rollStep_getCol_ne (by decide) (by decide),
        (rollStep_written (hh1.mpr hpres)).2, h1]
  · have hh1 : hasCol (rollStep (rollStep A "rain_sum") "precipitation_sum") "wind_speed_max" ↔
        hasCol A "wind_speed_max" :=
      (rollStep_hasCol_ne (by decide) (by decide)).trans
        (rollStep_hasCol_ne (by decide) (by decide))
    have h1 : getCol (rollStep (rollStep A "rain_sum") "precipitation_sum") "wind_speed_max"
        = getCol A "wind_speed_max" := by
      rw [rollStep_getCol_ne (by decide) (by decide), rollStep_getCol_ne (by decide) (by decide)]
    constructor
    · rw [rollStep_getCol_ne (by decide) (by decide),
        (rollStep_written (hh1.mpr hpres)).1, h1]
    · rw [rollStep_getCol_ne (by decide) (by decide),
        (rollStep_written (hh1.mpr hpres)).2, h1]
  · have hh1 : hasCol (rollStep (rollStep (rollStep A "rain_sum") "precipitation_sum")
        "wind_speed_max") "wind_gust_max" ↔ hasCol A "wind_gust_max" :=
      (rollStep_hasCol_ne (by decide) (by decide)).trans
        ((rollStep_hasCol_ne (by decide) (by decide)).trans
          (rollStep_hasCol_ne (by decide) (by decide)))
    have h1 : getCol (rollStep (rollStep (rollStep A "rain_sum") "precipitation_sum")
        "wind_speed_max") "wind_gust_max" = getCol A "wind_gust_max" := by
      rw [rollStep_getCol_ne (by decide) (by decide), rollStep_getCol_ne (by decide) (by decide),
        rollStep_getCol_ne (by decide) (by decide)]
    constructor
    · rw [(rollStep_written (hh1.mpr hpres)).1, h1]
    · rw [(rollStep_written (hh1.mpr hpres)).2, h1]

/-- In `preEngineer df`, the rolling column of a present base column holds
exactly the pandas rolling mean of the raw base column. -/
theorem preEngineer_roll_col {df : Table} {c : String} (hc : c ∈ rolling_features)
    (hpres : hasCol df c) :
    getCol (preEngineer df) (c ++ "_roll3") = pdRollMean 3 (getCol df c) ∧
    getCol (preEngineer df) (c ++ "_roll6") = pdRollMean 6 (getCol df c) := by
  have hcl : c ∈ lag_features := rolling_sub_lag c hc
  obtain ⟨hbase, hhas⟩ := lagfold_base df hcl
  obtain ⟨hf1, hf2, hf3, hf4⟩ := roll_tag_ne_flag c hc
  unfold preEngineer
  rw [addFlags_getCol_ne hf1 hf2, addFlags_getCol_ne hf3 hf4]
  obtain ⟨w3, w6⟩ := rollfold_written hc (hhas.mpr hpres)
  rw [w3, w6, hbase]
  exact ⟨rfl, rfl⟩

/-- The first defined value at or below position `t` of a column, as the
backfill step computes it. -/
theorem firstSome_drop (v : Col) (q : ℚ) :
    ∀ (d t : Nat), t + d < v.length → (∀ j, t ≤ j → j < t + d → v.getD j none = none) →
      v.getD (t + d) none = some q → ((v.drop t).filterMap id).head? = some q := by
  intro d
  induction d with
  | zero =>
    intro t hlt _ hq
    rw [List.drop_eq_getElem_cons (show t < v.length by omega)]
    rw [show t + 0 = t from rfl] at hq
    rw [getD_getElem (show t < v.length by omega)] at hq
    simp [hq]
  | succ d ih =>
    intro t hlt hnone hq
    have ht : v.getD t none = none := hnone t (le_refl t) (by omega)
    rw [List.drop_eq_getElem_cons (show t < v.length by omega)]
    have hvt : v[t] = (none : Cell) := by
      rw [← getD_getElem (show t < v.length by omega)]
      exact ht
    rw [List.filterMap_cons, hvt]
    exact ih (t + 1) (by omega) (fun j hj1 hj2 => hnone j (by omega) (by omega))
      (by rw [show t + 1 + d = t + (d + 1) by omega]; exact hq)

theorem pdRollMean_getD_none {w : Nat} {v : Col} {j : Nat} (hj : j < v.length)
    (hjw : j + 1 < w) : (pdRollMean w v).getD j none = none := by
  unfold pdRollMean
  rw [getD_range_map hj, if_neg (by omega)]

/-- Value of a rolling-mean column after the final fill: the complete-window
mean at the row itself for rows past the warm-up, and the first complete
window's mean (pulled back by the backfill) before it. -/
theorem finalFill_rollMean {L w : Nat} {v : Col} (hlen : v.length = L)
    (hsome : ∀ x ∈ v, x ≠ none) (hw0 : 0 < w) (hwL : w ≤ L) {t : Nat} (ht : t < L) :
    (finalFill (pdRollMean w v)).getD t none
      = some (cellSum (windowAt w v (max t (w - 1))) / (w : ℚ)) := by
  by_cases hbig : w - 1 ≤ t
  · rw [Nat.max_eq_left hbig]
    exact finalFill_getD_some (pdRollMean_getD_some hlen hsome (by omega) ht)
  · rw [Nat.max_eq_right (le_of_not_le hbig)]
    push_neg at hbig
    have hmean : (pdRollMean w v).getD (w - 1) none
        = some (cellSum (windowAt w v (w - 1)) / (w : ℚ)) :=
      pdRollMean_getD_some hlen hsome (by omega) (by omega)
    have hfirst : (((pdRollMean w v).drop t).filterMap id).head?
        = some (cellSum (windowAt w v (w - 1)) / (w : ℚ)) := by
      refine firstSome_drop _ _ (w - 1 - t) t ?_ ?_ ?_
      · rw [pdRollMean_length, hlen]
        omega
      · intro j hj1 hj2
        exact pdRollMean_getD_none (by rw [hlen]; omega) (by omega)
      · rw [show t + (w - 1 - t) = w - 1 by omega]
        exact hmean
    have hbf : (pdBfill (pdRollMean w v)).getD t none
        = some (cellSum (windowAt w v (w - 1)) / (w : ℚ)) := by
      rw [pdBfill_getD (by rw [pdRollMean_length, hlen]; omega)]
      exact hfirst
    exact pdFill0_getD_some (pdFfill_getD_some hbf)

/-- The value of every cell of a rolling column of `engineer_features`. -/
theorem engineer_roll_value {df : Table} {L : Nat} (hdf : AllDefined L df) {c : String}
    (hc : c ∈ rolling_features) (hpres : hasCol df c) {w : Nat} {tag : String}
    (htag : (w = 3 ∧ tag = "_roll3") ∨ (w = 6 ∧ tag = "_roll6")) (hwL : w ≤ L)
    {t : Nat} (ht : t < L) :
    cell (engineer_features df) (c ++ tag) t
      = some (cellSum (windowAt w (getCol df c) (max t (w - 1))) / (w : ℚ)) := by
  unfold engineer_features cell
  rw [getCol_mapVals _ _ _ finalFill_nil]
  obtain ⟨hlen, hsome⟩ := getCol_allDefined hdf hpres
  rcases htag with ⟨rfl, rfl⟩ | ⟨rfl, rfl⟩
  · rw [(preEngineer_roll_col hc hpres).1]
    exact finalFill_rollMean hlen hsome (by omega) hwL ht
  · rw [(preEngineer_roll_col hc hpres).2]
    exact finalFill_rollMean hlen hsome (by omega) hwL ht

/-! ### Lemmas about the alert engine -/

theorem getSCol_map_set (cols : List (String × List String)) (n : String) (v : List String)
    (h : n ∈ cols.map (·.1)) :
    getSCol (cols.map (fun p => if p.1 = n then (n, v) else p)) n = v := by
  induction cols with
  | nil => simp at h
  | cons p rest ih =>
    by_cases hp : p.1 = n
    · simp [getSCol, hp]
    · rcases List.mem_cons.mp h with h' | h'
      · exact absurd h'.symm hp
      · simp [getSCol, hp, ih h']

theorem getSCol_append_one_self (cols : List (String × List String)) (n : String)
    (v : List String) (h : ¬ n ∈ cols.map (·.1)) : getSCol (cols ++ [(n, v)]) n = v := by
  induction cols with
  | nil => simp [getSCol]
  | cons p rest ih =>
    simp only [List.map_cons, List.mem_cons] at h
    push_neg at h
    have hp : p.1 ≠ n := fun hh => h.1 hh.symm
    simp [getSCol, hp, ih h.2]

theorem getSCol_append_one_ne (cols : List (String × List String)) {n m : String}
    (v : List String) (h : n ≠ m) : getSCol (cols ++ [(m, v)]) n = getSCol cols n := by
  induction cols with
  | nil => simp [getSCol, Ne.symm h]
  | cons p rest ih =>
    by_cases hp : p.1 = n <;> simp [getSCol, hp, ih]

theorem getSCol_setSCol_self (cols : List (String × List String)) (n : String)
    (v : List String) : getSCol (setSCol cols n v) n = v := by
  unfold setSCol
  by_cases h : n ∈ cols.map (·.1)
  · rw [if_pos h]
    exact getSCol_map_set cols n v h
  · rw [if_neg h]
    exact getSCol_append_one_self cols n v h

theorem getSCol_setSCol_ne {cols : List (String × List String)} {n m : String}
    {v : List String} (h : n ≠ m) : getSCol (setSCol cols m v) n = getSCol cols n := by
  unfold setSCol
  by_cases hm : m ∈ cols.map (·.1)
  · rw [if_pos hm]
    clear hm
    induction cols with
    | nil => simp [getSCol]
    | cons p rest ih =>
      by_cases hp : p.1 = m
      · simp [getSCol, hp, Ne.symm h, ih]
      · by_cases hpn : p.1 = n <;> simp [getSCol, hp, hpn, h, ih]
  · rw [if_neg hm]
    exact getSCol_append_one_ne cols v h

theorem alertsFold_skip (df : Table) (nm : String) :
    ∀ (l : List String) (acc : List (String × List String)),
      (∀ b ∈ l, pyReplace b "_prob" "_alert" ≠ nm) →
      getSCol (l.foldl (alertAssign df) acc) nm = getSCol acc nm := by
  intro l
  induction l with
  | nil => intro acc _; rfl
  | cons x xs ih =>
    intro acc hne
    rw [List.foldl_cons]
    rw [ih _ (fun b hb => hne b (List.mem_cons_of_mem x hb))]
    exact getSCol_setSCol_ne (Ne.symm (hne x (List.mem_cons_self x xs)))

theorem alertsFold_get (df : Table) (c : String) :
    ∀ (l : List String) (acc : List (String × List String)), c ∈ l →
      (∀ a ∈ l, ∀ b ∈ l,
        pyReplace a "_prob" "_alert" = pyReplace b "_prob" "_alert" → a = b) →
      l.Nodup →
      getSCol (l.foldl (alertAssign df) acc) (pyReplace c "_prob" "_alert")
        = (getCol df c).map risk_alert := by
  intro l
  induction l with
  | nil => intro acc hc; exact absurd hc (List.not_mem_nil c)
  | cons x xs ih =>
    intro acc hc hinj hnd
    rw [List.foldl_cons]
    rcases List.mem_cons.mp hc with rfl | hc'
    · have hrest : ∀ b ∈ xs, pyReplace b "_prob" "_alert" ≠ pyReplace c "_prob" "_alert" := by
        intro b hb heq
        have hbc : b = c := hinj b (List.mem_cons_of_mem c hb) c (List.mem_cons_self c xs) heq
        exact (List.nodup_cons.mp hnd).1 (hbc ▸ hb)
      rw [alertsFold_skip df _ xs _ hrest]
      exact getSCol_setSCol_self _ _ _
    · exact ih _ hc'
        (fun a ha b hb => hinj a (List.mem_cons_of_mem x ha) b (List.mem_cons_of_mem x hb))
        (List.nodup_cons.mp hnd).2

theorem applyAlertCols_get {df : Table} {c : String} (hc : c ∈ risk_prob_cols df)
    (hinj : ∀ a ∈ risk_prob_cols df, ∀ b ∈ risk_prob_cols df,
      pyReplace a "_prob" "_alert" = pyReplace b "_prob" "_alert" → a = b)
    (hnd : (risk_prob_cols df).Nodup) :
    getSCol (applyAlertCols df) (pyReplace c "_prob" "_alert")
      = (getCol df c).map risk_alert :=
  alertsFold_get df c (risk_prob_cols df) [] hc hinj hnd

theorem hasCol_of_mem_probCols {df : Table} {c : String} (hc : c ∈ risk_prob_cols df) :
    hasCol df c := by
  unfold risk_prob_cols at hc
  exact List.mem_of_mem_filter hc

theorem nRows_eq {L : Nat} {df : Table} (hne : df ≠ [])
    (hlen : ∀ p ∈ df, p.2.length = L) : nRows df = L := by
  match df, hne with
  | p :: rest, _ => exact hlen p (List.mem_cons_self p rest)

theorem df_ne_nil_of_probCols {df : Table} (h : risk_prob_cols df ≠ []) : df ≠ [] := by
  rintro rfl
  exact h rfl

/-! ### The severity order and the row maximum -/

theorem risk_alert_mem (p : Cell) : risk_alert p ∈ severity_order := by
  unfold risk_alert
  split_ifs <;> simp [severity_order]

theorem severityRank_le_three {s : String} (h : s ∈ severity_order) : severityRank s ≤ 3 := by
  simp only [severity_order, List.mem_cons, List.not_mem_nil, or_false] at h
  rcases h with rfl | rfl | rfl | rfl <;> decide

theorem severityRank_severe : severityRank "Severe Risk — Take Immediate Action" = 3 := by
  decide

theorem eq_severe_of_rank {s : String} (hmem : s ∈ severity_order) (h : severityRank s = 3) :
    s = "Severe Risk — Take Immediate Action" := by
  simp only [severity_order, List.mem_cons, List.not_mem_nil, or_false] at hmem
  rcases hmem with rfl | rfl | rfl | rfl
  · exact absurd h (by decide)
  · exact absurd h (by decide)
  · exact absurd h (by decide)
  · rfl

theorem pyMax_aux : ∀ (xs : List String) (b : String),
    ((xs.foldl (fun b a => if severityRank b < severityRank a then a else b) b) = b ∨
      (xs.foldl (fun b a => if severityRank b < severityRank a then a else b) b) ∈ xs) ∧
    severityRank b
      ≤ severityRank (xs.foldl (fun b a => if severityRank b < severityRank a then a else b) b) ∧
    (∀ a ∈ xs, severityRank a
      ≤ severityRank (xs.foldl (fun b a => if severityRank b < severityRank a then a else b) b)) := by
  intro xs
  induction xs with
  | nil =>
    intro b
    exact ⟨Or.inl rfl, le_refl _, by simp⟩
  | cons a0 rest ih =>
    intro b
    simp only [List.foldl_cons]
    obtain ⟨hmem, hle, hall⟩ := ih (if severityRank b < severityRank a0 then a0 else b)
    refine ⟨?_, ?_, ?_⟩
    · rcases hmem with h | h
      · rw [h]
        by_cases hc : severityRank b < severityRank a0
        · rw [if_pos hc]
          exact Or.inr (List.mem_cons_self a0 rest)
        · rw [if_neg hc]
          exact Or.inl rfl
      · exact Or.inr (List.mem_cons_of_mem a0 h)
    · refine le_trans ?_ hle
      by_cases hc : severityRank b < severityRank a0
      · rw [if_pos hc]
        omega
      · rw [if_neg hc]
    · intro a ha
      rcases List.mem_cons.mp ha with rfl | ha'
      · refine le_trans ?_ hle
        by_cases hc : severityRank b < severityRank a
        · rw [if_pos hc]
        · rw [if_neg hc]
          omega
      · exact hall a ha'

theorem pyMax_spec (l : List String) (hne : l ≠ []) :
    pyMaxBySeverity l ∈ l ∧ ∀ a ∈ l, severityRank a ≤ severityRank (pyMaxBySeverity l) := by
  match l, hne with
  | x :: xs, _ =>
    have hred : pyMaxBySeverity (x :: xs)
        = xs.foldl (fun b a => if severityRank b < severityRank a then a else b) x := rfl
    rw [hred]
    obtain ⟨hmem, hle, hall⟩ := pyMax_aux xs x
    refine ⟨?_, ?_⟩
    · rcases hmem with h | h
      · rw [h]
        exact List.mem_cons_self x xs
      · exact List.mem_cons_of_mem x h
    · intro a ha
      rcases List.mem_cons.mp ha with rfl | ha'
      · exact hle
      · exact hall a ha'

theorem pyMax_severe {l : List String} (hl : ∀ a ∈ l, a ∈ severity_order)
    (hs : "Severe Risk — Take Immediate Action" ∈ l) :
    pyMaxBySeverity l = "Severe Risk — Take Immediate Action" := by
  have hne : l ≠ [] := by
    rintro rfl
    simp at hs
  obtain ⟨hmem, hmax⟩ := pyMax_spec l hne
  have h3 : severityRank (pyMaxBySeverity l) = 3 :=
    le_antisymm (severityRank_le_three (hl _ hmem))
      (by simpa [severityRank_severe] using hmax _ hs)
  exact eq_severe_of_rank (hl _ hmem) h3

/-! ### Cell-level description of `apply_risk_alerts` -/

theorem getD_map_alert {l : Col} {i : Nat} (hi : i < l.length) :
    (l.map risk_alert).getD i "" = risk_alert (l.getD i none) := by
  rw [List.getD_eq_getElem?_getD, List.getElem?_map, List.getElem?_eq_getElem hi,
    getD_getElem hi]
  rfl

theorem apply_overall_empty {df : Table} (h : risk_prob_cols df = []) :
    getSCol (apply_risk_alerts df).2 "overall_alert"
      = List.replicate (nRows df) "No Risks Predicted" := by
  simp only [apply_risk_alerts, h, List.isEmpty_nil, if_true]
  exact getSCol_setSCol_self _ _ _

theorem apply_overall_cell {df : Table} {L : Nat} (hlen : ∀ p ∈ df, p.2.length = L)
    (hne : risk_prob_cols df ≠ []) {i : Nat} (hi : i < L) :
    scell (apply_risk_alerts df) "overall_alert" i
      = some (pyMaxBySeverity ((risk_prob_cols df).map
          (fun c => (getSCol (applyAlertCols df) (pyReplace c "_prob" "_alert")).getD i ""))) := by
  have hnr : nRows df = L := nRows_eq (df_ne_nil_of_probCols hne) hlen
  unfold scell
  simp only [apply_risk_alerts]
  rw [if_neg (by simpa [List.isEmpty_iff] using hne)]
  rw [getSCol_setSCol_self]
  rw [List.getElem?_map, List.getElem?_range (by rw [hnr]; exact hi)]
  simp only [List.map_map, Option.map_some]
  rfl

theorem getCol_length_of_probCol {df : Table} {L : Nat} (hlen : ∀ p ∈ df, p.2.length = L)
    {c : String} (hc : c ∈ risk_prob_cols df) : (getCol df c).length = L := by
  obtain ⟨p, hp, _, hp2⟩ := getCol_mem (hasCol_of_mem_probCols hc)
  rw [hp2]
  exact hlen p hp

theorem apply_alert_cell {df : Table} {L : Nat} (hlen : ∀ p ∈ df, p.2.length = L)
    (hnd : (risk_prob_cols df).Nodup)
    (hinj : ∀ a ∈ risk_prob_cols df, ∀ b ∈ risk_prob_cols df,
      pyReplace a "_prob" "_alert" = pyReplace b "_prob" "_alert" → a = b)
    (hov : ∀ c' ∈ risk_prob_cols df, pyReplace c' "_prob" "_alert" ≠ "overall_alert")
    {c : String} (hc : c ∈ risk_prob_cols df) {i : Nat} (hi : i < L) :
    scell (apply_risk_alerts df) (pyReplace c "_prob" "_alert") i
      = some (risk_alert (cell df c i)) := by
  have hcollen : (getCol df c).length = L := getCol_length_of_probCol hlen hc
  unfold scell
  have hgs : getSCol (apply_risk_alerts df).2 (pyReplace c "_prob" "_alert")
      = (getCol df c).map risk_alert := by
    simp only [apply_risk_alerts]
    by_cases hemp : (risk_prob_cols df).isEmpty
    · exact absurd hc (by simp [List.isEmpty_iff.mp hemp])
    · rw [if_neg hemp]
      rw [getSCol_setSCol_ne (hov c hc)]
      exact applyAlertCols_get hc hinj hnd
  rw [hgs, List.getElem?_map, List.getElem?_eq_getElem (by rw [hcollen]; exact hi)]
  rw [cell, getD_getElem (by rw [hcollen]; exact hi)]
  rfl

theorem apply_overall_max {df : Table} {L : Nat} (hlen : ∀ p ∈ df, p.2.length = L)
    (hnd : (risk_prob_cols df).Nodup)
    (hinj : ∀ a ∈ risk_prob_cols df, ∀ b ∈ risk_prob_cols df,
      pyReplace a "_prob" "_alert" = pyReplace b "_prob" "_alert" → a = b)
    (hne : risk_prob_cols df ≠ []) {i : Nat} (hi : i < L) :
    scell (apply_risk_alerts df) "overall_alert" i
      = some (pyMaxBySeverity
          ((risk_prob_cols df).map (fun c => risk_alert (cell df c i)))) := by
  rw [apply_overall_cell hlen hne hi]
  congr 2
  apply List.map_congr_left
  intro c hc
  rw [applyAlertCols_get hc hinj hnd,
    getD_map_alert (by rw [getCol_length_of_probCol hlen hc]; exact hi)]
  rfl

/-! ### Lemmas about the inference engine -/

theorem colNames_align (X : Table) (F : List String) : colNames (align_features X F) = F := by
  unfold colNames align_features
  rw [List.map_map]
  have : ∀ c ∈ F, ((fun p => p.1) ∘ fun col =>
      if hasCol X col then (col, getCol X col)
      else (col, List.replicate (nRows X) (some 0))) c = id c := by
    intro c _
    by_cases hx : hasCol X c <;> simp [hx]
  rw [List.map_congr_left this, List.map_id]

theorem hasCol_align {X : Table} {F : List String} {n : String} :
    hasCol (align_features X F) n ↔ n ∈ F := by
  show n ∈ colNames (align_features X F) ↔ n ∈ F
  rw [colNames_align]

theorem getCol_align {X : Table} {F : List String} (hF : F.Nodup) {n : String} (hn : n ∈ F) :
    getCol (align_features X F) n
      = if hasCol X n then getCol X n else List.replicate (nRows X) (some 0) := by
  induction F with
  | nil => simp at hn
  | cons f fs ih =>
    rcases List.mem_cons.mp hn with rfl | hn'
    · by_cases hx : hasCol X n <;> simp [align_features, getCol, hx]
    · have hfn : f ≠ n := fun h => (List.nodup_cons.mp hF).1 (h ▸ hn')
      have ihr := ih (List.nodup_cons.mp hF).2 hn'
      unfold align_features at ihr
      by_cases hx : hasCol X f <;>
        simp [align_features, getCol, hx, hfn, ihr]

theorem tryScore_proba_two {X : Table} {model : RiskModel}
    {ppf : Table → Except String (List (List ℚ))} {proba : List (List ℚ)} {preds : List ℚ}
    (hpp : model.predict_proba = some ppf)
    (hok : ppf (align_features X (model.feature_names_in.getD (colNames X)))
      = Except.ok proba)
    (h2 : probaWidth proba = 2)
    (hpred : model.predict (align_features X (model.feature_names_in.getD (colNames X)))
      = Except.ok preds) :
    tryScore X model
      = Except.ok (proba.map (fun row => some (row.getD 1 0)), preds.map some) := by
  simp [tryScore, hpp, hok, h2, hpred, Except.instMonad, Except.bind, Except.pure]

theorem tryScore_single_class {X : Table} {model : RiskModel}
    {ppf : Table → Except String (List (List ℚ))} {proba : List (List ℚ)} {preds : List ℚ}
    {cls : Int}
    (hpp : model.predict_proba = some ppf)
    (hok : ppf (align_features X (model.feature_names_in.getD (colNames X)))
      = Except.ok proba)
    (hw : probaWidth proba ≠ 2)
    (hcls : model.classes.head? = some cls)
    (hpred : model.predict (align_features X (model.feature_names_in.getD (colNames X)))
      = Except.ok preds) :
    tryScore X model
      = Except.ok ((if cls = 1 then List.replicate (nRows X) (some 1)
          else List.replicate (nRows X) (some 0)), preds.map some) := by
  simp [tryScore, hpp, hok, hw, hcls, hpred, Except.instMonad, Except.bind, Except.pure]

theorem prob_pred_suffix_ne (h : String) : h ++ "_risk_prob" ≠ h ++ "_risk_pred" :=
  append_ne_of_suffix_ne (by decide) (by decide)

theorem hazard_names_ne {h1 h2 : String} (hne : h1 ≠ h2) {s1 s2 : String}
    (hs1 : s1 = "_risk_prob" ∨ s1 = "_risk_pred")
    (hs2 : s2 = "_risk_prob" ∨ s2 = "_risk_pred") : h1 ++ s1 ≠ h2 ++ s2 := by
  rcases hs1 with rfl | rfl <;> rcases hs2 with rfl | rfl <;>
    exact append_ne_of_base_ne (by decide) hne

theorem scoreStep_ok_cols {X dfOut : Table} {h : String} {model : RiskModel}
    {probCol predCol : Col} (ht : tryScore X model = Except.ok (probCol, predCol)) :
    getCol (scoreStep X dfOut (h, model)) (h ++ "_risk_prob") = probCol ∧
    getCol (scoreStep X dfOut (h, model)) (h ++ "_risk_pred") = predCol := by
  unfold scoreStep
  rw [ht]
  exact ⟨by rw [getCol_setCol_ne (prob_pred_suffix_ne h), getCol_setCol_self],
    by rw [getCol_setCol_self]⟩

theorem scoreStep_err_cols {X dfOut : Table} {h : String} {model : RiskModel} {msg : String}
    (ht : tryScore X model = Except.error msg) :
    getCol (scoreStep X dfOut (h, model)) (h ++ "_risk_prob")
      = List.replicate (nRows X) none ∧
    getCol (scoreStep X dfOut (h, model)) (h ++ "_risk_pred")
      = List.replicate (nRows X) none := by
  unfold scoreStep failedHazardUpdate
  rw [ht]
  exact ⟨by rw [getCol_setCol_ne (prob_pred_suffix_ne h), getCol_setCol_self],
    by rw [getCol_setCol_self]⟩

theorem scoreStep_getCol_ne {X dfOut : Table} {p : String × RiskModel} {n : String}
    (h1 : n ≠ p.1 ++ "_risk_prob") (h2 : n ≠ p.1 ++ "_risk_pred") :
    getCol (scoreStep X dfOut p) n = getCol dfOut n := by
  unfold scoreStep failedHazardUpdate
  cases htry : tryScore X p.2 with
  | error msg => rw [getCol_setCol_ne h2, getCol_setCol_ne h1]
  | ok pc => rw [getCol_setCol_ne h2, getCol_setCol_ne h1]

theorem foldl_scoreStep_skip (X : Table) (nm : String) :
    ∀ (l : List (String × RiskModel)) (acc : Table),
      (∀ p ∈ l, nm ≠ p.1 ++ "_risk_prob" ∧ nm ≠ p.1 ++ "_risk_pred") →
      getCol (l.foldl (scoreStep X) acc) nm = getCol acc nm := by
  intro l
  induction l with
  | nil => intro acc _; rfl
  | cons p ps ih =>
    intro acc hne
    rw [List.foldl_cons,
      ih _ (fun q hq => hne q (List.mem_cons_of_mem p hq)),
      scoreStep_getCol_ne (hne p (List.mem_cons_self p ps)).1
        (hne p (List.mem_cons_self p ps)).2]

theorem setCol_agree {acc acc' : Table} {P : String → Prop}
    (hR : ∀ n, P n → getCol acc n = getCol acc' n) (nm : String) (v : Col) :
    ∀ n, P n → getCol (setCol acc nm v) n = getCol (setCol acc' nm v) n := by
  intro n hn
  by_cases hmn : n = nm
  · subst hmn
    rw [getCol_setCol_self, getCol_setCol_self]
  · rw [getCol_setCol_ne hmn, getCol_setCol_ne hmn]
    exact hR n hn

theorem scoreStep_agree {X : Table} {acc acc' : Table} {P : String → Prop}
    (hR : ∀ n, P n → getCol acc n = getCol acc' n) (p : String × RiskModel) :
    ∀ n, P n → getCol (scoreStep X acc p) n = getCol (scoreStep X acc' p) n := by
  intro n hn
  unfold scoreStep failedHazardUpdate
  cases htry : tryScore X p.2 with
  | error msg => exact setCol_agree (setCol_agree hR _ _) _ _ n hn
  | ok pc => exact setCol_agree (setCol_agree hR _ _) _ _ n hn

theorem foldl_scoreStep_agree (X : Table) {P : String → Prop} :
    ∀ (l : List (String × RiskModel)) (acc acc' : Table),
      (∀ n, P n → getCol acc n = getCol acc' n) →
      ∀ n, P n → getCol (l.foldl (scoreStep X) acc) n
        = getCol (l.foldl (scoreStep X) acc') n := by
  intro l
  induction l with
  | nil => intro acc acc' hR n hn; exact hR n hn
  | cons p ps ih =>
    intro acc acc' hR n hn
    rw [List.foldl_cons, List.foldl_cons]
    exact ih _ _ (scoreStep_agree hR p) n hn

theorem predict_risks_ok {df : Table} (h : tableEmpty df = false)
    (models : List (String × RiskModel)) :
    predict_risks df models = Except.ok (scoreFold df models) := by
  unfold predict_risks
  rw [if_neg (by simp [h])]

/-! ### Names the pipeline never writes (for the missing-column policy) -/

theorem append_last (a s : String) (hs : s.data ≠ []) :
    (a ++ s).data.getLast? = s.data.getLast? := by
  rw [String.data_append]
  exact List.getLast?_append_of_ne_nil _ hs

theorem lit_ne_append {u a s : String} (hs : s.data ≠ [])
    (h : u.data.getLast? ≠ s.data.getLast?) : u ≠ a ++ s := by
  intro he
  apply h
  rw [he]
  exact append_last a s hs

theorem append_ne_append_of_last {a b s t : String} (hs : s.data ≠ []) (ht : t.data ≠ [])
    (h : s.data.getLast? ≠ t.data.getLast?) : a ++ s ≠ b ++ t := by
  intro he
  apply h
  rw [← append_last a s hs, he, append_last b t ht]

/-- Through the whole derivation pipeline, a table that lacks `rain_sum` —
and does not already carry the columns derived from it — never grows the
`heavy_rain_flag` column nor the `rain_sum` lag columns. -/
theorem preEngineer_no_rain_cols {df : Table}
    (h1 : ¬ hasCol df "rain_sum") (h2 : ¬ hasCol df "heavy_rain_flag")
    (h3 : ¬ hasCol df ("rain_sum" ++ "_lag1")) :
    ¬ hasCol (preEngineer df) "heavy_rain_flag" ∧
    ¬ hasCol (preEngineer df) ("rain_sum" ++ "_lag1") := by
  have hlag : ∀ b ∈ lag_features, ∀ t : Table,
      (¬ hasCol t "rain_sum" ∧ ¬ hasCol t "heavy_rain_flag" ∧
        ¬ hasCol t ("rain_sum" ++ "_lag1")) →
      (¬ hasCol (lagStep t b) "rain_sum" ∧ ¬ hasCol (lagStep t b) "heavy_rain_flag" ∧
        ¬ hasCol (lagStep t b) ("rain_sum" ++ "_lag1")) := by
    intro b hb t ht
    by_cases hbr : b = "rain_sum"
    · subst hbr
      unfold lagStep
      rw [if_neg ht.1]
      exact ht
    · have g0 := lag_names_fresh b hb "rain_sum" (by decide)
      have gflag : ∀ s : String, s.data ≠ [] → s.data.getLast? ≠ some 'g' →
          ("heavy_rain_flag" : String) ≠ b ++ s := by
        intro s hs hlast
        refine lit_ne_append hs ?_
        rw [show ("heavy_rain_flag" : String).data.getLast? = some 'g' from by decide]
        exact fun hh => hlast hh.symm
      have glag : ("rain_sum" ++ "_lag1" : String) ≠ b ++ "_lag1" ∧
          ("rain_sum" ++ "_lag1" : String) ≠ b ++ "_lag3" ∧
          ("rain_sum" ++ "_lag1" : String) ≠ b ++ "_lag6" :=
        ⟨append_ne_of_base_ne (by decide) (Ne.symm hbr),
         append_ne_of_suffix_ne (by decide) (by decide),
         append_ne_of_suffix_ne (by decide) (by decide)⟩
      refine ⟨?_, ?_, ?_⟩
      · rw [lagStep_hasCol_ne g0.1 g0.2.1 g0.2.2]
        exact ht.1
      · rw [lagStep_hasCol_ne (gflag _ (by decide) (by decide)) (gflag _ (by decide) (by decide))
          (gflag _ (by decide) (by decide))]
        exact ht.2.1
      · rw [lagStep_hasCol_ne glag.1 glag.2.1 glag.2.2]
        exact ht.2.2
  have hroll : ∀ b ∈ rolling_features, ∀ t : Table,
      (¬ hasCol t "rain_sum" ∧ ¬ hasCol t "heavy_rain_flag" ∧
        ¬ hasCol t ("rain_sum" ++ "_lag1")) →
      (¬ hasCol (rollStep t b) "rain_sum" ∧ ¬ hasCol (rollStep t b) "heavy_rain_flag" ∧
        ¬ hasCol (rollStep t b) ("rain_sum" ++ "_lag1")) := by
    intro b hb t ht
    have g0 := roll_names_fresh b hb "rain_sum" (by decide)
    have gflag : ∀ s : String, s.data ≠ [] → s.data.getLast? ≠ some 'g' →
        ("heavy_rain_flag" : String) ≠ b ++ s := by
      intro s hs hlast
      refine lit_ne_append hs ?_
      rw [show ("heavy_rain_flag" : String).data.getLast? = some 'g' from by decide]
      exact fun hh => hlast hh.symm
    have glag : ("rain_sum" ++ "_lag1" : String) ≠ b ++ "_roll3" ∧
        ("rain_sum" ++ "_lag1" : String) ≠ b ++ "_roll6" :=
      ⟨append_ne_append_of_last (by decide) (by decide) (by decide),
       append_ne_append_of_last (by decide) (by decide) (by decide)⟩
    refine ⟨?_, ?_, ?_⟩
    · rw [rollStep_hasCol_ne g0.1 g0.2]
      exact ht.1
    · rw [rollStep_hasCol_ne (gflag _ (by decide) (by decide)) (gflag _ (by decide) (by decide))]
      exact ht.2.1
    · rw [rollStep_hasCol_ne glag.1 glag.2]
      exact ht.2.2
  have hy : ¬ hasCol (rolling_features.foldl rollStep (lag_features.foldl lagStep df))
        "rain_sum" ∧
      ¬ hasCol (rolling_features.foldl rollStep (lag_features.foldl lagStep df))
        "heavy_rain_flag" ∧
      ¬ hasCol (rolling_features.foldl rollStep (lag_features.foldl lagStep df))
        ("rain_sum" ++ "_lag1") :=
    foldl_pres rolling_features _ hroll (foldl_pres lag_features df hlag ⟨h1, h2, h3⟩)
  unfold preEngineer addFlags
  rw [if_neg hy.1]
  by_cases hw : hasCol (rolling_features.foldl rollStep (lag_features.foldl lagStep df))
      "wind_gust_max"
  · rw [if_pos hw]
    constructor
    · rw [hasCol_setCol]
      rintro (h | h)
      · exact absurd h (by decide)
      · exact hy.2.1 h
    · rw [hasCol_setCol]
      rintro (h | h)
      · exact absurd h (by decide)
      · exact hy.2.2 h
  · rw [if_neg hw]
    exact ⟨hy.2.1, hy.2.2⟩

/-! ### Definitions stated from the spec, for comparison with the code -/

/-- Stated from the spec's words (C8): the shrinking-window trailing mean —
the mean of the last `min w (i+1)` observations ending at row `i`, with
minimum window size 1 at the start of the series. -/
def specShrinkMean (w : Nat) (v : Col) (i : Nat) : Cell :=
  some (cellSum ((v.take (i + 1)).drop (i + 1 - w))
    / (((v.take (i + 1)).drop (i + 1 - w)).length : ℚ))

/-- Stated from the spec's words (C2): the per-row overall alert that
excludes hazards whose probability is the undefined sentinel, i.e. the
severity maximum over the defined hazards only. -/
def specOverallDefinedOnly (df : Table) (i : Nat) : String :=
  pyMaxBySeverity (((risk_prob_cols df).filter (fun c => (cell df c i).isSome)).map
    (fun c => risk_alert (cell df c i)))

/-! ### The claims -/

/-- C3: severity mapping of the per-hazard alert written by
`apply_risk_alerts`, with inclusive lower bounds: a defined probability `p`
maps to Low when `p < 0.1`, Moderate when `0.1 ≤ p < 0.3`, High when
`0.3 ≤ p < 0.5` and Severe when `p ≥ 0.5`. -/
theorem C3_severity_mapping (df : Table) (L : Nat) (hlen : ∀ p ∈ df, p.2.length = L)
    (hnd : (risk_prob_cols df).Nodup)
    (hinj : ∀ a ∈ risk_prob_cols df, ∀ b ∈ risk_prob_cols df,
      pyReplace a "_prob" "_alert" = pyReplace b "_prob" "_alert" → a = b)
    (hov : ∀ c' ∈ risk_prob_cols df, pyReplace c' "_prob" "_alert" ≠ "overall_alert")
    (c : String) (hc : c ∈ risk_prob_cols df) (i : Nat) (hi : i < L)
    (p : ℚ) (hp : cell df c i = some p) :
    (p < 1/10 → scell (apply_risk_alerts df) (pyReplace c "_prob" "_alert") i
        = some "Low Risk — No Action") ∧
    (1/10 ≤ p → p < 3/10 → scell (apply_risk_alerts df) (pyReplace c "_prob" "_alert") i
        = some "Moderate Risk — Stay Alert") ∧
    (3/10 ≤ p → p < 1/2 → scell (apply_risk_alerts df) (pyReplace c "_prob" "_alert") i
        = some "High Risk — Prepare Precautions") ∧
    (1/2 ≤ p → scell (apply_risk_alerts df) (pyReplace c "_prob" "_alert") i
        = some "Severe Risk — Take Immediate Action") := by
  have hcell := apply_alert_cell hlen hnd hinj hov hc hi
  rw [hp] at hcell
  have hflt : ∀ q c' : ℚ, (floatLt (some q) c' = true) ↔ q < c' := by
    intro q c'
    simp [floatLt]
  refine ⟨fun h => ?_, fun h1 h2 => ?_, fun h1 h2 => ?_, fun h1 => ?_⟩ <;>
    rw [hcell] <;> unfold risk_alert
  · rw [if_pos ((hflt p (1/10)).mpr h)]
  · rw [if_neg (fun hh => absurd ((hflt p (1/10)).mp hh) (not_lt.mpr h1)),
      if_pos ((hflt p (3/10)).mpr h2)]
  · rw [if_neg (fun hh => absurd ((hflt p (1/10)).mp hh) (not_lt.mpr (by linarith))),
      if_neg (fun hh => absurd ((hflt p (3/10)).mp hh) (not_lt.mpr h1)),
      if_pos ((hflt p (1/2)).mpr h2)]
  · rw [if_neg (fun hh => absurd ((hflt p (1/10)).mp hh) (not_lt.mpr (by linarith))),
      if_neg (fun hh => absurd ((hflt p (3/10)).mp hh) (not_lt.mpr (by linarith))),
      if_neg (fun hh => absurd ((hflt p (1/2)).mp hh) (not_lt.mpr h1))]

theorem C3_severity_mapping_witness :
    ((1:ℚ)/10 ≤ 1/10 ∧
      scell (apply_risk_alerts [("flood_risk_prob", [some ((1:ℚ)/10)])])
        (pyReplace "flood_risk_prob" "_prob" "_alert") 0
        = some "Moderate Risk — Stay Alert") ∧
    ((19:ℚ)/20 ≥ 1/2 ∧
      scell (apply_risk_alerts [("flood_risk_prob", [some ((19:ℚ)/20)])])
        (pyReplace "flood_risk_prob" "_prob" "_alert") 0
        = some "Severe Risk — Take Immediate Action") :=
  ⟨⟨by norm_num,
    (C3_severity_mapping [("flood_risk_prob", [some ((1:ℚ)/10)])] 1 (by decide) (by decide)
      (by decide) (by decide) "flood_risk_prob" (by decide) 0 (by decide) (1/10)
      rfl).2.1 (by norm_num) (by norm_num)⟩,
   ⟨by norm_num,
    (C3_severity_mapping [("flood_risk_prob", [some ((19:ℚ)/20)])] 1 (by decide) (by decide)
      (by decide) (by decide) "flood_risk_prob" (by decide) 0 (by decide) (19/20)
      rfl).2.2.2 (by norm_num)⟩⟩

/-- C10: the NaN sentinel falls through every threshold comparison, so
`risk_alert` returns the Severe label on it; `apply_risk_alerts` therefore
writes Severe into a hazard's alert column wherever its probability is NaN;
and `risk_alert` is total — it returns one of the four labels for every
input. -/
theorem C10_nan_maps_to_severe (df : Table) (L : Nat) (hlen : ∀ p ∈ df, p.2.length = L)
    (hnd : (risk_prob_cols df).Nodup)
    (hinj : ∀ a ∈ risk_prob_cols df, ∀ b ∈ risk_prob_cols df,
      pyReplace a "_prob" "_alert" = pyReplace b "_prob" "_alert" → a = b)
    (hov : ∀ c' ∈ risk_prob_cols df, pyReplace c' "_prob" "_alert" ≠ "overall_alert")
    (c : String) (hc : c ∈ risk_prob_cols df) (i : Nat) (hi : i < L)
    (hnan : cell df c i = none) :
    risk_alert none = "Severe Risk — Take Immediate Action" ∧
    (∀ p : Cell, risk_alert p ∈ severity_order) ∧
    scell (apply_risk_alerts df) (pyReplace c "_prob" "_alert") i
      = some "Severe Risk — Take Immediate Action" := by
  refine ⟨rfl, risk_alert_mem, ?_⟩
  have hcell := apply_alert_cell hlen hnd hinj hov hc hi
  rw [hnan] at hcell
  exact hcell

theorem C10_nan_maps_to_severe_witness :
    scell (apply_risk_alerts [("flood_risk_prob", [none])])
        (pyReplace "flood_risk_prob" "_prob" "_alert") 0
      = some "Severe Risk — Take Immediate Action" :=
  (C10_nan_maps_to_severe [("flood_risk_prob", [none])] 1 (by decide) (by decide) (by decide)
    (by decide) "flood_risk_prob" (by decide) 0 (by decide) rfl).2.2

/-- C2: counterexample — on a row where flood's probability is NaN and
rain's is 0.05, `apply_risk_alerts` computes overall Severe, while the
severity maximum over only the defined hazards is Low: the undefined
hazard is not excluded from the aggregation. -/
theorem C2_counterexample_nan_excluded :
    scell (apply_risk_alerts [("flood_risk_prob", [none]), ("rain_risk_prob", [some (1/20)])])
        "overall_alert" 0 = some "Severe Risk — Take Immediate Action" ∧
    specOverallDefinedOnly [("flood_risk_prob", [none]), ("rain_risk_prob", [some (1/20)])] 0
      = "Low Risk — No Action" ∧
    ("Severe Risk — Take Immediate Action" : String) ≠ "Low Risk — No Action" := by
  refine ⟨?_, ?_, by decide⟩
  · simp +decide [scell, apply_risk_alerts, applyAlertCols, alertAssign, risk_prob_cols,
      risk_alert, colNames, getCol, getSCol, setSCol, nRows, pyReplace, listReplace,
      pyEndsWith, floatLt, pyMaxBySeverity, severityRank, severity_order, cell,
      List.range, List.range.loop]
    norm_num
  · simp +decide [specOverallDefinedOnly, risk_prob_cols, pyEndsWith, colNames, cell, getCol,
      risk_alert, floatLt, pyMaxBySeverity, severityRank, severity_order]
    norm_num

/-- C2 (amended): an undefined probability is not excluded from the
aggregation — `risk_alert` maps NaN to the Severe label, which then
dominates the row maximum, so `overall_alert` is Severe on every row in
which any hazard's probability is NaN. -/
theorem C2_nan_overall_amended (df : Table) (L : Nat) (hlen : ∀ p ∈ df, p.2.length = L)
    (hnd : (risk_prob_cols df).Nodup)
    (hinj : ∀ a ∈ risk_prob_cols df, ∀ b ∈ risk_prob_cols df,
      pyReplace a "_prob" "_alert" = pyReplace b "_prob" "_alert" → a = b)
    (c : String) (hc : c ∈ risk_prob_cols df) (i : Nat) (hi : i < L)
    (hnan : cell df c i = none) :
    scell (apply_risk_alerts df) "overall_alert" i
      = some "Severe Risk — Take Immediate Action" := by
  have hne : risk_prob_cols df ≠ [] := fun h => by simp [h] at hc
  rw [apply_overall_max hlen hnd hinj hne hi]
  congr 1
  apply pyMax_severe
  · intro a ha
    obtain ⟨c', _, hc'⟩ := List.mem_map.mp ha
    exact hc' ▸ risk_alert_mem _
  · refine List.mem_map.mpr ⟨c, hc, ?_⟩
    rw [hnan]
    rfl

theorem C2_nan_overall_amended_witness :
    scell (apply_risk_alerts [("flood_risk_prob", [none]),
        ("rain_risk_prob", [some ((1:ℚ)/20)])]) "overall_alert" 0
      = some "Severe Risk — Take Immediate Action" :=
  C2_nan_overall_amended [("flood_risk_prob", [none]), ("rain_risk_prob", [some ((1:ℚ)/20)])]
    1 (by decide) (by decide) (by decide) "flood_risk_prob" (by decide) 0 (by decide) rfl

/-- C4: overall-alert aggregation — with every probability defined and at
least one probability column, the overall alert of a row is the maximum of
its per-hazard alerts under Low < Moderate < High < Severe; the example
row with alerts {Low, High, Moderate} yields High; and with zero
probability columns every row's overall alert is the "No Risks Predicted"
sentinel with no error raised. -/
theorem C4_overall_aggregation (df : Table) (L : Nat) (hne0 : df ≠ [])
    (hlen : ∀ p ∈ df, p.2.length = L)
    (hnd : (risk_prob_cols df).Nodup)
    (hinj : ∀ a ∈ risk_prob_cols df, ∀ b ∈ risk_prob_cols df,
      pyReplace a "_prob" "_alert" = pyReplace b "_prob" "_alert" → a = b)
    (_hdef : ∀ c ∈ risk_prob_cols df, ∀ x ∈ getCol df c, x ≠ none)
    (i : Nat) (hi : i < L) :
    (risk_prob_cols df ≠ [] →
      ∃ m, scell (apply_risk_alerts df) "overall_alert" i = some m ∧
        m ∈ (risk_prob_cols df).map (fun c => risk_alert (cell df c i)) ∧
        ∀ a ∈ (risk_prob_cols df).map (fun c => risk_alert (cell df c i)),
          severityRank a ≤ severityRank m) ∧
    (risk_prob_cols df = [] →
      scell (apply_risk_alerts df) "overall_alert" i = some "No Risks Predicted") ∧
    scell (apply_risk_alerts [("flood_risk_prob", [some ((1:ℚ)/20)]),
        ("storm_risk_prob", [some ((9:ℚ)/20)]), ("rain_risk_prob", [some ((1:ℚ)/4)])])
      "overall_alert" 0 = some "High Risk — Prepare Precautions" := by
  refine ⟨fun hne => ?_, fun hemp => ?_, ?_⟩
  · obtain ⟨hmem, hmax⟩ := pyMax_spec
      ((risk_prob_cols df).map (fun c => risk_alert (cell df c i))) (by simpa using hne)
    exact ⟨_, apply_overall_max hlen hnd hinj hne hi, hmem, hmax⟩
  · unfold scell
    rw [apply_overall_empty hemp, List.getElem?_replicate,
      if_pos (by rw [nRows_eq hne0 hlen]; exact hi)]
  · simp +decide [scell, apply_risk_alerts, applyAlertCols, alertAssign, risk_prob_cols,
      risk_alert, colNames, getCol, getSCol, setSCol, nRows, pyReplace, listReplace,
      pyEndsWith, floatLt, pyMaxBySeverity, severityRank, severity_order, cell,
      List.range, List.range.loop]
    norm_num
    decide

theorem C4_overall_aggregation_witness :
    (∃ m, scell (apply_risk_alerts [("flood_risk_prob", [some ((1:ℚ)/20)]),
          ("storm_risk_prob", [some ((9:ℚ)/20)]), ("rain_risk_prob", [some ((1:ℚ)/4)])])
        "overall_alert" 0 = some m ∧
      m ∈ (risk_prob_cols [("flood_risk_prob", [some ((1:ℚ)/20)]),
          ("storm_risk_prob", [some ((9:ℚ)/20)]), ("rain_risk_prob", [some ((1:ℚ)/4)])]).map
          (fun c => risk_alert (cell [("flood_risk_prob", [some ((1:ℚ)/20)]),
            ("storm_risk_prob", [some ((9:ℚ)/20)]), ("rain_risk_prob", [some ((1:ℚ)/4)])] c 0)) ∧
      ∀ a ∈ (risk_prob_cols [("flood_risk_prob", [some ((1:ℚ)/20)]),
          ("storm_risk_prob", [some ((9:ℚ)/20)]), ("rain_risk_prob", [some ((1:ℚ)/4)])]).map
          (fun c => risk_alert (cell [("flood_risk_prob", [some ((1:ℚ)/20)]),
            ("storm_risk_prob", [some ((9:ℚ)/20)]), ("rain_risk_prob", [some ((1:ℚ)/4)])] c 0)),
        severityRank a ≤ severityRank m) ∧
    scell (apply_risk_alerts [("temperature_mean", [some (20:ℚ)])]) "overall_alert" 0
      = some "No Risks Predicted" :=
  ⟨(C4_overall_aggregation [("flood_risk_prob", [some ((1:ℚ)/20)]),
      ("storm_risk_prob", [some ((9:ℚ)/20)]), ("rain_risk_prob", [some ((1:ℚ)/4)])] 1
      (by decide) (by decide) (by decide) (by decide) (by decide) 0 (by decide)).1
      (by decide),
   (C4_overall_aggregation [("temperature_mean", [some (20:ℚ)])] 1 (by decide) (by decide)
      (by decide) (by decide) (by decide) 0 (by decide)).2.1 (by decide)⟩

/-- C1: counterexample — running `engineer_features` on the input truncated
just after row 0 yields rain_sum_roll3 = 0 at row 0, while the full
three-row input yields 1 there (the rolling NaN at row 0 is backfilled
from the full-window mean at row 2): the feature value at row T is not a
function of the rows with timestamp ≤ T only. -/
theorem C1_counterexample_lookahead :
    cell (engineer_features (truncRows 1 [("rain_sum", [some 0, some 0, some 3])]))
        "rain_sum_roll3" 0
      ≠ cell (engineer_features [("rain_sum", [some 0, some 0, some 3])])
        "rain_sum_roll3" 0 := by
  norm_num [cell, engineer_features, preEngineer, mapVals, lag_features, rolling_features,
    lagStep, rollStep, addFlags, hasCol, colNames, getCol, setCol, pdShift, pdRollMean,
    windowAt, cellSum, finalFill, pdBfill, pdFfill, pdFill0, flagCol, truncRows,
    List.range, List.range.loop]
  decide

/-- C1 (amended): for a fully defined observation table, the no-look-ahead
property holds at every row with index at least 6 — the feature values at
row T agree between the full input and the input truncated just after row
T; the first six rows may depend on later rows through the backfill step
of the final NaN policy. -/
theorem C1_no_lookahead_amended (df : Table) (L T : Nat)
    (hdf : ∀ p ∈ df, p.2.length = L ∧ ∀ x ∈ p.2, x ≠ none)
    (hT6 : 6 ≤ T) (hTL : T < L) (name : String) :
    cell (engineer_features (truncRows (T + 1) df)) name T
      = cell (engineer_features df) name T :=
  no_lookahead_core hdf hT6 hTL name

theorem C1_no_lookahead_amended_witness :
    cell (engineer_features (truncRows 7 [("rain_sum",
        [some 1, some 2, some 3, some 4, some 5, some 6, some 7, some 8])]))
      "rain_sum_roll3" 6
      = cell (engineer_features [("rain_sum",
        [some 1, some 2, some 3, some 4, some 5, some 6, some 7, some 8])])
      "rain_sum_roll3" 6 :=
  C1_no_lookahead_amended
    [("rain_sum", [some 1, some 2, some 3, some 4, some 5, some 6, some 7, some 8])]
    8 6 (by decide) (by decide) (by decide) "rain_sum_roll3"

/-- C8: counterexample — at row 0 of a three-row rain_sum column [0, 0, 3]
the code's rain_sum_roll3 value is 1, the backfilled mean of the first
complete window, not the shrinking-window mean 0 of the single available
row: the rolling aggregate does not use a shrinking window. -/
theorem C8_counterexample_shrinking_window :
    cell (engineer_features [("rain_sum", [some 0, some 0, some 3])]) "rain_sum_roll3" 0
        = some 1 ∧
    specShrinkMean 3 [some 0, some 0, some 3] 0 = some 0 ∧
    (some 1 : Cell) ≠ some 0 := by
  refine ⟨?_, ?_, by norm_num⟩
  · norm_num [cell, engineer_features, preEngineer, mapVals, lag_features, rolling_features,
      lagStep, rollStep, addFlags, hasCol, colNames, getCol, setCol, pdShift, pdRollMean,
      windowAt, cellSum, finalFill, pdBfill, pdFfill, pdFill0, flagCol,
      List.range, List.range.loop]
    decide
  · norm_num [specShrinkMean, cellSum]

/-- C8 (amended): for every base column of the rolling set that is present
with fully defined values, and both window sizes w ∈ {3, 6}, the rolling
feature value at row t is the mean of the complete trailing w-row window
ending at row max t (w-1) — the exact trailing mean for t ≥ w-1, and for
the first w-1 rows the backfilled mean of the first complete window, not a
shrinking-window mean. -/
theorem C8_rolling_amended (df : Table) (L : Nat)
    (hdf : ∀ p ∈ df, p.2.length = L ∧ ∀ x ∈ p.2, x ≠ none)
    (c : String) (hc : c ∈ rolling_features) (hpres : hasCol df c)
    (w : Nat) (tag : String)
    (htag : (w = 3 ∧ tag = "_roll3") ∨ (w = 6 ∧ tag = "_roll6"))
    (hwL : w ≤ L) (t : Nat) (ht : t < L) :
    cell (engineer_features df) (c ++ tag) t
      = some (cellSum (windowAt w (getCol df c) (max t (w - 1))) / (w : ℚ)) :=
  engineer_roll_value hdf hc hpres htag hwL ht

theorem C8_rolling_amended_witness :
    cell (engineer_features [("rain_sum", [some 0, some 0, some 3])]) ("rain_sum" ++ "_roll3") 2
      = some (cellSum (windowAt 3 (getCol [("rain_sum", [some 0, some 0, some 3])] "rain_sum")
          (max 2 (3 - 1))) / ((3 : Nat) : ℚ)) :=
  C8_rolling_amended [("rain_sum", [some 0, some 0, some 3])] 3 (by decide) "rain_sum"
    (by decide) (by decide) 3 "_roll3" (Or.inl ⟨rfl, rfl⟩) (by decide) 2 (by decide)

/-- C9: counterexample — on a table lacking rain_sum (and every other
configured base column except temperature_mean), `engineer_features`
reports no error: it returns an ordinary feature table, and the derived
features that need the missing columns (heavy_rain_flag, rain_sum_lag1)
are silently absent rather than any configuration error being raised. -/
theorem C9_counterexample_silent_skip :
    engineer_features [("temperature_mean", [some 20])]
      = [("temperature_mean", [some 20]),
         ("temperature_mean" ++ "_lag1", [some 0]),
         ("temperature_mean" ++ "_lag3", [some 0]),
         ("temperature_mean" ++ "_lag6", [some 0])] ∧
    ¬ hasCol (engineer_features [("temperature_mean", [some 20])]) "heavy_rain_flag" ∧
    ¬ hasCol (engineer_features [("temperature_mean", [some 20])]) ("rain_sum" ++ "_lag1") := by
  exact ⟨by decide, by decide, by decide⟩

/-- C9 (amended): `engineer_features` never reports a configuration error —
it is a total transformation, and a derived feature whose base column is
absent is silently omitted: when rain_sum is missing (and the derived
columns are not already present in the input), the output carries neither
the heavy-rain flag nor the rain_sum lag columns. -/
theorem C9_missing_column_amended (df : Table)
    (h1 : ¬ hasCol df "rain_sum") (h2 : ¬ hasCol df "heavy_rain_flag")
    (h3 : ¬ hasCol df ("rain_sum" ++ "_lag1")) :
    ¬ hasCol (engineer_features df) "heavy_rain_flag" ∧
    ¬ hasCol (engineer_features df) ("rain_sum" ++ "_lag1") := by
  obtain ⟨ha, hb⟩ := preEngineer_no_rain_cols h1 h2 h3
  unfold engineer_features
  exact ⟨fun h => ha (hasCol_mapVals.mp h), fun h => hb (hasCol_mapVals.mp h)⟩

theorem C9_missing_column_amended_witness :
    ¬ hasCol (engineer_features [("temperature_mean", [some (20:ℚ)])]) "heavy_rain_flag" ∧
    ¬ hasCol (engineer_features [("temperature_mean", [some (20:ℚ)])])
      ("rain_sum" ++ "_lag1") :=
  C9_missing_column_amended [("temperature_mean", [some (20:ℚ)])]
    (by decide) (by decide) (by decide)

/-- C5: feature alignment — the aligned table has exactly the
model-declared feature names in exactly the declared order, with names
absent from the input added as constant-0 columns and input columns not
declared dropped; and it is this aligned table, not the raw input, whose
scoring by predict_proba determines the probability column written by
predict_risks. -/
theorem C5_feature_alignment (X : Table) (F : List String) (hF : F.Nodup) :
    colNames (align_features X F) = F ∧
    (∀ n ∈ F, ¬ hasCol X n →
      getCol (align_features X F) n = List.replicate (nRows X) (some 0)) ∧
    (∀ n ∈ F, hasCol X n → getCol (align_features X F) n = getCol X n) ∧
    (∀ n, hasCol (align_features X F) n → n ∈ F) ∧
    (∀ (hzd : String) (model : RiskModel) (ppf : Table → Except String (List (List ℚ)))
        (proba : List (List ℚ)) (preds : List ℚ),
      model.feature_names_in = some F →
      model.predict_proba = some ppf →
      ppf (align_features X F) = Except.ok proba →
      probaWidth proba = 2 →
      model.predict (align_features X F) = Except.ok preds →
      getCol (scoreFold X [(hzd, model)]) (hzd ++ "_risk_prob")
        = proba.map (fun row => some (row.getD 1 0))) := by
  refine ⟨colNames_align X F, fun n hn hnx => ?_, fun n hn hx => ?_,
    fun n hn => hasCol_align.mp hn, ?_⟩
  · rw [getCol_align hF hn, if_neg hnx]
  · rw [getCol_align hF hn, if_pos hx]
  · intro hzd model ppf proba preds hfn hpp hok h2 hpred
    have hgetd : model.feature_names_in.getD (colNames X) = F := by
      rw [hfn]
      rfl
    have ht := tryScore_proba_two hpp (by rw [hgetd]; exact hok) h2
      (by rw [hgetd]; exact hpred)
    exact (scoreStep_ok_cols ht).1

theorem C5_feature_alignment_witness :
    colNames (align_features [("A", [some (1:ℚ)]), ("B", [some (2:ℚ)]), ("D", [some (3:ℚ)])]
      ["A", "B", "C"]) = ["A", "B", "C"] ∧
    getCol (align_features [("A", [some (1:ℚ)]), ("B", [some (2:ℚ)]), ("D", [some (3:ℚ)])]
      ["A", "B", "C"]) "C" = List.replicate 1 (some 0) ∧
    ¬ hasCol (align_features [("A", [some (1:ℚ)]), ("B", [some (2:ℚ)]), ("D", [some (3:ℚ)])]
      ["A", "B", "C"]) "D" := by
  have h := C5_feature_alignment
    [("A", [some (1:ℚ)]), ("B", [some (2:ℚ)]), ("D", [some (3:ℚ)])] ["A", "B", "C"]
    (by decide)
  refine ⟨h.1, ?_, ?_⟩
  · exact h.2.1 "C" (by decide) (by decide)
  · exact fun hd => by exact absurd (h.2.2.2.1 "D" hd) (by decide)

/-- C6: single-class fallback — when a hazard's model exposes
predict_proba but the probability matrix has a single column,
predict_risks writes a probability column that is constantly 1 when the
sole known class is 1 and constantly 0 otherwise, and the run returns a
table without error. -/
theorem C6_single_class_fallback (df : Table) (models pre post : List (String × RiskModel))
    (hzd : String) (model : RiskModel) (ppf : Table → Except String (List (List ℚ)))
    (proba : List (List ℚ)) (preds : List ℚ) (cls : Int)
    (hsplit : models = pre ++ (hzd, model) :: post)
    (hpost : ∀ q ∈ post, q.1 ≠ hzd)
    (hne : tableEmpty df = false)
    (hpp : model.predict_proba = some ppf)
    (hok : ppf (align_features df (model.feature_names_in.getD (colNames df)))
      = Except.ok proba)
    (h1 : probaWidth proba = 1)
    (hcls : model.classes.head? = some cls)
    (hpred : model.predict (align_features df (model.feature_names_in.getD (colNames df)))
      = Except.ok preds) :
    predict_risks df models = Except.ok (scoreFold df models) ∧
    getCol (scoreFold df models) (hzd ++ "_risk_prob")
      = List.replicate (nRows df) (some (if cls = 1 then (1:ℚ) else 0)) := by
  refine ⟨predict_risks_ok hne models, ?_⟩
  subst hsplit
  rw [scoreFold, List.foldl_append, List.foldl_cons]
  rw [foldl_scoreStep_skip df _ post _ (fun q hq =>
    ⟨hazard_names_ne (Ne.symm (hpost q hq)) (Or.inl rfl) (Or.inl rfl),
     hazard_names_ne (Ne.symm (hpost q hq)) (Or.inl rfl) (Or.inr rfl)⟩)]
  have ht := tryScore_single_class hpp hok (by rw [h1]; decide) hcls hpred
  rw [(scoreStep_ok_cols ht).1]
  by_cases hcls1 : cls = 1 <;> simp [hcls1]

theorem C6_single_class_fallback_witness :
    predict_risks [("x", [some (1:ℚ)])]
        [("flood", ⟨none, [1], some (fun _ => Except.ok [[1]]), fun _ => Except.ok [1]⟩)]
      = Except.ok (scoreFold [("x", [some (1:ℚ)])]
          [("flood", ⟨none, [1], some (fun _ => Except.ok [[1]]), fun _ => Except.ok [1]⟩)]) ∧
    getCol (scoreFold [("x", [some (1:ℚ)])]
        [("flood", ⟨none, [1], some (fun _ => Except.ok [[1]]), fun _ => Except.ok [1]⟩)])
        ("flood" ++ "_risk_prob")
      = List.replicate 1 (some (if (1:Int) = 1 then (1:ℚ) else 0)) :=
  C6_single_class_fallback [("x", [some (1:ℚ)])]
    [("flood", ⟨none, [1], some (fun _ => Except.ok [[1]]), fun _ => Except.ok [1]⟩)]
    [] [] "flood" ⟨none, [1], some (fun _ => Except.ok [[1]]), fun _ => Except.ok [1]⟩
    (fun _ => Except.ok [[1]]) [[1]] [1] 1 rfl (by simp) rfl rfl rfl rfl rfl rfl

/-- C7: per-model isolation — when scoring one hazard raises, predict_risks
still returns a complete table, writes the undefined sentinel into both of
the failed hazard's columns for every row, and every other hazard's
probability and prediction columns are exactly what they would be if the
failing model were absent from the registry. -/
theorem C7_per_model_isolation (df : Table) (models pre post : List (String × RiskModel))
    (hzd : String) (badModel : RiskModel) (msg : String)
    (hsplit : models = pre ++ (hzd, badModel) :: post)
    (hnodup : (models.map Prod.fst).Nodup)
    (hne : tableEmpty df = false)
    (hfail : tryScore df badModel = Except.error msg) :
    predict_risks df models = Except.ok (scoreFold df models) ∧
    getCol (scoreFold df models) (hzd ++ "_risk_prob") = List.replicate (nRows df) none ∧
    getCol (scoreFold df models) (hzd ++ "_risk_pred") = List.replicate (nRows df) none ∧
    (∀ h2 ∈ models.map Prod.fst, h2 ≠ hzd →
      getCol (scoreFold df models) (h2 ++ "_risk_prob")
        = getCol (scoreFold df (pre ++ post)) (h2 ++ "_risk_prob") ∧
      getCol (scoreFold df models) (h2 ++ "_risk_pred")
        = getCol (scoreFold df (pre ++ post)) (h2 ++ "_risk_pred")) := by
  subst hsplit
  have hpostne : ∀ q ∈ post, q.1 ≠ hzd := by
    intro q hq heq
    have hmm : hzd ∈ post.map Prod.fst := heq ▸ List.mem_map_of_mem Prod.fst hq
    have hnd0 : (pre.map Prod.fst ++ hzd :: post.map Prod.fst).Nodup := by
      simpa using hnodup
    have hnd2 : (hzd :: post.map Prod.fst).Nodup := List.Nodup.of_append_right hnd0
    exact (List.nodup_cons.mp hnd2).1 hmm
  have hskip : ∀ (nm : String), (nm = hzd ++ "_risk_prob" ∨ nm = hzd ++ "_risk_pred") →
      getCol (post.foldl (scoreStep df)
          (scoreStep df (pre.foldl (scoreStep df) df) (hzd, badModel))) nm
        = getCol (scoreStep df (pre.foldl (scoreStep df) df) (hzd, badModel)) nm := by
    intro nm hnm
    refine foldl_scoreStep_skip df nm post _ (fun q hq => ?_)
    rcases hnm with rfl | rfl
    · exact ⟨hazard_names_ne (Ne.symm (hpostne q hq)) (Or.inl rfl) (Or.inl rfl),
        hazard_names_ne (Ne.symm (hpostne q hq)) (Or.inl rfl) (Or.inr rfl)⟩
    · exact ⟨hazard_names_ne (Ne.symm (hpostne q hq)) (Or.inr rfl) (Or.inl rfl),
        hazard_names_ne (Ne.symm (hpostne q hq)) (Or.inr rfl) (Or.inr rfl)⟩
  refine ⟨predict_risks_ok hne _, ?_, ?_, ?_⟩
  · rw [scoreFold, List.foldl_append, List.foldl_cons, hskip _ (Or.inl rfl)]
    exact (scoreStep_err_cols hfail).1
  · rw [scoreFold, List.foldl_append, List.foldl_cons, hskip _ (Or.inr rfl)]
    exact (scoreStep_err_cols hfail).2
  · intro h2 hmem hne2
    have hR : ∀ n, (n ≠ hzd ++ "_risk_prob" ∧ n ≠ hzd ++ "_risk_pred") →
        getCol (scoreStep df (pre.foldl (scoreStep df) df) (hzd, badModel)) n
          = getCol (pre.foldl (scoreStep df) df) n :=
      fun n hn => scoreStep_getCol_ne hn.1 hn.2
    constructor
    · rw [scoreFold, scoreFold, List.foldl_append, List.foldl_append, List.foldl_cons]
      exact foldl_scoreStep_agree df post _ _ hR _
        ⟨hazard_names_ne hne2 (Or.inl rfl) (Or.inl rfl),
         hazard_names_ne hne2 (Or.inl rfl) (Or.inr rfl)⟩
    · rw [scoreFold, scoreFold, List.foldl_append, List.foldl_append, List.foldl_cons]
      exact foldl_scoreStep_agree df post _ _ hR _
        ⟨hazard_names_ne hne2 (Or.inr rfl) (Or.inl rfl),
         hazard_names_ne hne2 (Or.inr rfl) (Or.inr rfl)⟩

/-- Concrete scoring model used by the isolation witness: a working binary
classifier. -/
def wGood : RiskModel :=
  ⟨some ["x"], [0, 1], some (fun _ => Except.ok [[1/4, 3/4]]), fun _ => Except.ok [1]⟩

/-- Concrete scoring model used by the isolation witness: its predict call
raises. -/
def wBad : RiskModel := ⟨none, [], none, fun _ => Except.error "boom"⟩

/-- Concrete one-row feature table used by the isolation witness. -/
def wDf : Table := [("x", [some 1])]

theorem C7_per_model_isolation_witness :
    predict_risks wDf [("flood", wGood), ("storm", wBad)]
      = Except.ok (scoreFold wDf [("flood", wGood), ("storm", wBad)]) ∧
    getCol (scoreFold wDf [("flood", wGood), ("storm", wBad)]) ("storm" ++ "_risk_prob")
      = List.replicate (nRows wDf) none ∧
    getCol (scoreFold wDf [("flood", wGood), ("storm", wBad)]) ("storm" ++ "_risk_pred")
      = List.replicate (nRows wDf) none ∧
    (∀ h2 ∈ [("flood", wGood), ("storm", wBad)].map Prod.fst, h2 ≠ "storm" →
      getCol (scoreFold wDf [("flood", wGood), ("storm", wBad)]) (h2 ++ "_risk_prob")
        = getCol (scoreFold wDf ([("flood", wGood)] ++ [])) (h2 ++ "_risk_prob") ∧
      getCol (scoreFold wDf [("flood", wGood), ("storm", wBad)]) (h2 ++ "_risk_pred")
        = getCol (scoreFold wDf ([("flood", wGood)] ++ [])) (h2 ++ "_risk_pred")) :=
  C7_per_model_isolation wDf [("flood", wGood), ("storm", wBad)] [("flood", wGood)] []
    "storm" wBad "boom" rfl (by decide) rfl rfl

end EnvRisk
